import Mathlib

/-!
Shallow embedding of the `InheritanceInliner` pass (src/unnamed/part_000) of
the warp transpiler, together with proofs about the claims on its behaviour.

The embedding models the fragment of the `solc-typed-ast` data model that the
pass touches.  Node ids are natural numbers drawn from a monotonically
increasing counter (the `nextId` field of `AST`); `reserveId` returns the next
id and bumps the counter, mirroring `ast.reserveId()`.  Mutation of the AST is
modelled by explicit state passing: every operation that allocates ids takes
the current counter and returns the new one, and a contract being flattened is
threaded through the phases and written back into the contract list at the end
of `visitContractDefinition` (in the source the mutation is in place; the
phases only ever read *base* contracts from the surrounding AST, and those are
never the contract currently being mutated, so the two presentations agree).

JavaScript `Map`s are modelled as association lists with insertion-order
semantics: `jsMapSet` on an existing key replaces the value but keeps the
entry's position, exactly like `Map.prototype.set`, and iteration is list
order.  Fallible operations return `Except Err`; `Err` has one constructor
per error class the source can raise (`TranspileFailedError`,
`NotSupportedYetError`, and node's `assert`).
-/

namespace Warp

/-- The error classes raised by the pass: `TranspileFailedError` and
`NotSupportedYetError` from `utils/errors`, and Node `assert` failures. -/
inductive Err where
  | TranspileFailedError (msg : String)
  | NotSupportedYetError (msg : String)
  | AssertionError (msg : String)
deriving DecidableEq, Repr, Inhabited

inductive FunctionKind where
  | Function
  | Constructor
  | Fallback
  | Receive
deriving DecidableEq, Repr, Inhabited

inductive FunctionVisibility where
  | External
  | Public
  | Internal
  | Private
deriving DecidableEq, Repr, Inhabited

inductive FunctionStateMutability where
  | Pure
  | View
  | NonPayable
  | Payable
deriving DecidableEq, Repr, Inhabited

/-- Expression nodes.  Only identifiers are structurally relevant to the pass
(`createIdentifier`, argument forwarding); every other expression is opaque
payload carried around unchanged, represented by a tag. -/
inductive Expr where
  | identifierE (id : Nat) (name : String) (referencedDeclaration : Nat)
  | otherE (id : Nat) (tag : Nat)
deriving DecidableEq, Repr, Inhabited

structure VariableDeclaration where
  id : Nat
  name : String
  typeString : String
deriving DecidableEq, Repr, Inhabited

structure ParameterList where
  id : Nat
  parameters : List VariableDeclaration
deriving DecidableEq, Repr, Inhabited

/-- The referenced declaration of a modifier invocation: either a genuine
modifier, or a base contract (writing `Base(args)` on a constructor is an
explicit base-constructor invocation; the source distinguishes the two cases
with `instanceof ContractDefinition`). -/
inductive ModTarget where
  | contract (id : Nat)
  | modifierDef (id : Nat)
deriving DecidableEq, Repr, Inhabited

structure ModifierInvocation where
  id : Nat
  target : ModTarget
  arguments : List Expr
deriving DecidableEq, Repr, Inhabited

structure ModifierDefinition where
  id : Nat
  name : String
deriving DecidableEq, Repr, Inhabited

/-- A function call expression; the callee `Identifier` node is flattened into
the callee's id and name. -/
structure FunctionCallS where
  id : Nat
  calleeId : Nat
  calleeName : String
  args : List Expr
deriving DecidableEq, Repr, Inhabited

/-- Statements: the pass creates `ExpressionStatement`s wrapping constructor
calls and `Return`s wrapping delegate calls; pre-existing statements are
opaque. -/
inductive Statement where
  | exprStatement (id : Nat) (call : FunctionCallS)
  | returnStmt (id : Nat) (retParamsId : Nat) (call : FunctionCallS)
  | otherStmt (id : Nat) (tag : Nat)
deriving DecidableEq, Repr, Inhabited

structure Block where
  id : Nat
  statements : List Statement
deriving DecidableEq, Repr, Inhabited

structure FunctionDefinition where
  id : Nat
  scope : Nat
  kind : FunctionKind
  name : String
  virtual : Bool
  visibility : FunctionVisibility
  stateMutability : FunctionStateMutability
  isConstructor : Bool
  parameters : ParameterList
  returnParameters : ParameterList
  modifiers : List ModifierInvocation
  body : Option Block
deriving DecidableEq, Repr, Inhabited

/-- An inheritance specifier: `vBaseType.referencedDeclaration` and
`vArguments`. -/
structure InheritanceSpecifier where
  id : Nat
  baseId : Nat
  arguments : List Expr
deriving DecidableEq, Repr, Inhabited

/-- A reference node inside a contract's subtree, as walked by
`updateReferencedDeclarations`: a plain `Identifier`, an `IdentifierPath`, or
a `MemberAccess`, each with its `referencedDeclaration` id. -/
inductive RefNode where
  | identifier (id : Nat) (name : String) (referencedDeclaration : Nat)
  | identifierPath (id : Nat) (name : String) (referencedDeclaration : Nat)
  | memberAccess (id : Nat) (name : String) (referencedDeclaration : Nat)
deriving DecidableEq, Repr, Inhabited

/-- A contract definition.  `linearizedBaseContracts` is the upstream-computed
id list, self first.  The children of the node are kept per kind;
`appendChild` appends to the relevant list and `insertAtBeginning` prepends.
`refs` abstracts the reference nodes `walkChildren` visits, in walk order. -/
structure ContractDefinition where
  id : Nat
  name : String
  linearizedBaseContracts : List Nat
  functions : List FunctionDefinition
  stateVariables : List VariableDeclaration
  modifiers : List ModifierDefinition
  inheritanceSpecifiers : List InheritanceSpecifier
  refs : List RefNode
deriving DecidableEq, Repr, Inhabited

/-- The AST: the process-wide id counter and the compilation unit's contracts
(`ast.roots.flatMap((root) => root.vContracts)`), looked up by id. -/
structure AST where
  nextId : Nat
  contracts : List ContractDefinition
deriving DecidableEq, Repr, Inhabited

deriving instance DecidableEq for Except

/-- `ast.reserveId()` on the explicit counter. -/
def reserveId (n : Nat) : Nat × Nat := (n, n + 1)

def getContract (ast : AST) (cid : Nat) : Option ContractDefinition :=
  ast.contracts.find? (fun c => c.id == cid)

/-- Writing the flattened contract back in place of the stored one with the
same id (in the source this is in-place mutation of the same object). -/
def setContract (ast : AST) (node : ContractDefinition) : AST :=
  { ast with contracts := ast.contracts.map (fun c => if c.id == node.id then node else c) }

/-- JavaScript `Map.get`. -/
def jsMapGet {K V : Type} [BEq K] (m : List (K × V)) (k : K) : Option V :=
  (m.find? (fun p => p.1 == k)).map (fun p => p.2)

/-- JavaScript `Map.set`: replaces the value of an existing key in place
(keeping the entry's insertion position), otherwise appends a new entry. -/
def jsMapSet {K V : Type} [BEq K] (m : List (K × V)) (k : K) (v : V) : List (K × V) :=
  if m.any (fun p => p.1 == k) then m.map (fun p => if p.1 == k then (k, v) else p)
  else m ++ [(k, v)]

/-- Modelled from the spec: `cloneASTNode` on an expression (the source's
`utils/cloning` is outside the sampled files).  "Cloning always allocates
fresh ids for new nodes"; every other field is copied. -/
def cloneExpr (e : Expr) (n : Nat) : Expr × Nat :=
  match e with
  | Expr.identifierE _ nm refD =>
    let (i, n') := reserveId n
    (Expr.identifierE i nm refD, n')
  | Expr.otherE _ tag =>
    let (i, n') := reserveId n
    (Expr.otherE i tag, n')

/-- Modelled from the spec: deep clone of an expression list, left to right. -/
def cloneExprList : List Expr → Nat → List Expr × Nat
  | [], n => ([], n)
  | e :: es, n =>
    let (e', n1) := cloneExpr e n
    let (es', n2) := cloneExprList es n1
    (e' :: es', n2)

/-- Modelled from the spec: `cloneASTNode` on a variable declaration — fresh
id, all other fields copied. -/
def cloneVariableDeclaration (v : VariableDeclaration) (n : Nat) :
    VariableDeclaration × Nat :=
  let (i, n') := reserveId n
  ({ v with id := i }, n')

/-- Modelled from the spec: deep clone of a variable-declaration list. -/
def cloneVarList : List VariableDeclaration → Nat → List VariableDeclaration × Nat
  | [], n => ([], n)
  | v :: vs, n =>
    let (v', n1) := cloneVariableDeclaration v n
    let (vs', n2) := cloneVarList vs n1
    (v' :: vs', n2)

/-- Modelled from the spec: `cloneASTNode` on a parameter list. -/
def cloneParameterList (pl : ParameterList) (n : Nat) : ParameterList × Nat :=
  let (i, n1) := reserveId n
  let (ps, n2) := cloneVarList pl.parameters n1
  ({ id := i, parameters := ps }, n2)

/-- Modelled from the spec: `cloneASTNode` on a function call. -/
def cloneFunctionCall (c : FunctionCallS) (n : Nat) : FunctionCallS × Nat :=
  let (i, n1) := reserveId n
  let (as', n2) := cloneExprList c.args n1
  ({ c with id := i, args := as' }, n2)

/-- Modelled from the spec: `cloneASTNode` on a statement. -/
def cloneStatement (s : Statement) (n : Nat) : Statement × Nat :=
  match s with
  | Statement.exprStatement _ call =>
    let (i, n1) := reserveId n
    let (call', n2) := cloneFunctionCall call n1
    (Statement.exprStatement i call', n2)
  | Statement.returnStmt _ rp call =>
    let (i, n1) := reserveId n
    let (call', n2) := cloneFunctionCall call n1
    (Statement.returnStmt i rp call', n2)
  | Statement.otherStmt _ tag =>
    let (i, n1) := reserveId n
    (Statement.otherStmt i tag, n1)

/-- Modelled from the spec: deep clone of a statement list. -/
def cloneStmtList : List Statement → Nat → List Statement × Nat
  | [], n => ([], n)
  | s :: ss, n =>
    let (s', n1) := cloneStatement s n
    let (ss', n2) := cloneStmtList ss n1
    (s' :: ss', n2)

/-- Modelled from the spec: `cloneASTNode` on a block. -/
def cloneBlock (b : Block) (n : Nat) : Block × Nat :=
  let (i, n1) := reserveId n
  let (ss, n2) := cloneStmtList b.statements n1
  ({ id := i, statements := ss }, n2)

/-- Modelled from the spec: `cloneASTNode` on a modifier invocation. -/
def cloneModifierInvocation (m : ModifierInvocation) (n : Nat) :
    ModifierInvocation × Nat :=
  let (i, n1) := reserveId n
  let (as', n2) := cloneExprList m.arguments n1
  ({ m with id := i, arguments := as' }, n2)

/-- Modelled from the spec: deep clone of a modifier-invocation list. -/
def cloneModifierInvocationList :
    List ModifierInvocation → Nat → List ModifierInvocation × Nat
  | [], n => ([], n)
  | m :: ms, n =>
    let (m', n1) := cloneModifierInvocation m n
    let (ms', n2) := cloneModifierInvocationList ms n1
    (m' :: ms', n2)

/-- Modelled from the spec: `cloneASTNode` on a modifier definition. -/
def cloneModifierDefinition (m : ModifierDefinition) (n : Nat) :
    ModifierDefinition × Nat :=
  let (i, n') := reserveId n
  ({ m with id := i }, n')

/-- Modelled from the spec: `cloneASTNode` on a function definition — fresh
ids throughout, all non-id fields copied. -/
def cloneFunctionDefinition (f : FunctionDefinition) (n : Nat) :
    FunctionDefinition × Nat :=
  let (i, n1) := reserveId n
  let (ps, n2) := cloneParameterList f.parameters n1
  let (rs, n3) := cloneParameterList f.returnParameters n2
  let (ms, n4) := cloneModifierInvocationList f.modifiers n3
  let (b, n5) :=
    match f.body with
    | none => (none, n4)
    | some blk =>
      let (b', n') := cloneBlock blk n4
      (some b', n')
  ({ f with id := i, parameters := ps, returnParameters := rs,
            modifiers := ms, body := b }, n5)

/-- Modelled from the spec: `createIdentifier` from `utils/nodeTemplates` —
an `Identifier` expression referencing the given variable declaration. -/
def createIdentifier (v : VariableDeclaration) (n : Nat) : Expr × Nat :=
  let (i, n') := reserveId n
  (Expr.identifierE i v.name v.id, n')

/-- Modelled from the spec: `createIdentifier` applied to each parameter in
order (`inputParams.vParameters.map((v) => createIdentifier(v, ast))`). -/
def createIdentifiers : List VariableDeclaration → Nat → List Expr × Nat
  | [], n => ([], n)
  | v :: vs, n =>
    let (e, n1) := createIdentifier v n
    let (es, n2) := createIdentifiers vs n1
    (e :: es, n2)

/-- Modelled from the spec: `createBlock` from `utils/nodeTemplates` — a
fresh block holding the given statements. -/
def createBlock (ss : List Statement) (n : Nat) : Block × Nat :=
  let (i, n') := reserveId n
  ({ id := i, statements := ss }, n')

/-- Modelled from the spec: `createParameterList` from `utils/nodeTemplates`. -/
def createParameterList (ps : List VariableDeclaration) (n : Nat) :
    ParameterList × Nat :=
  let (i, n') := reserveId n
  ({ id := i, parameters := ps }, n')

/-- Modelled from the spec: `generateFunctionCall` from
`utils/functionGeneration` — a call expression whose callee references the
given function and whose arguments are the given list. -/
def generateFunctionCall (f : FunctionDefinition) (args : List Expr) (n : Nat) :
    FunctionCallS × Nat :=
  let (i, n') := reserveId n
  ({ id := i, calleeId := f.id, calleeName := f.name, args := args }, n')

/-- Modelled from the spec: `isExternallyVisible` from `utils/utils` — the
externally-callable visibilities are public and external. -/
def isExternallyVisible (f : FunctionDefinition) : Bool :=
  match f.visibility with
  | FunctionVisibility.External => true
  | FunctionVisibility.Public => true
  | _ => false

/-- `contract.vConstructor`: the contract's own constructor, if any. -/
def vConstructor (c : ContractDefinition) : Option FunctionDefinition :=
  c.functions.find? (fun f => f.isConstructor)

/-- `getBaseContracts`: `node.vLinearizedBaseContracts.slice(1)`, each id
resolved against the AST. -/
def getBaseContracts (ast : AST) (node : ContractDefinition) :
    List ContractDefinition :=
  (node.linearizedBaseContracts.drop 1).filterMap (getContract ast)

/-- `addPrivateSuperFunctions`: every non-constructor function of every base
contract (at depth `i`, 0-indexed) is cloned, renamed to `name_s(i+1)`, made
private, reparented to the node, and appended as a child; the remapping table
maps the original function's id to the (renamed) clone. -/
def addPrivateSuperFunctions (node : ContractDefinition)
    (idRemapping : List (Nat × FunctionDefinition)) (ast : AST) :
    ContractDefinition × List (Nat × FunctionDefinition) × AST :=
  let acc :=
    ((getBaseContracts ast node).enum).foldl
      (fun (acc : List FunctionDefinition × List (Nat × FunctionDefinition) × Nat) p =>
        let depth := p.1
        let base := p.2
        (base.functions.filter (fun func => !func.isConstructor)).foldl
          (fun (acc2 : List FunctionDefinition × List (Nat × FunctionDefinition) × Nat) func =>
            let (fs, remap, n) := acc2
            let (cloned, n') := cloneFunctionDefinition func n
            let clonedFunction :=
              { cloned with name := cloned.name ++ "_s" ++ toString (depth + 1),
                            visibility := FunctionVisibility.Private,
                            scope := node.id }
            (fs ++ [clonedFunction], jsMapSet remap func.id clonedFunction, n'))
          acc)
      ([], idRemapping, ast.nextId)
  ({ node with functions := node.functions ++ acc.1 }, acc.2.1,
   { ast with nextId := acc.2.2 })

/-- Adding a string to a JavaScript `Set` modelled as an insertion-ordered
list. -/
def addUnique (l : List String) (s : String) : List String :=
  if s ∈ l then l else l ++ [s]

/-- `squashInterface`: the set of externally visible, non-constructor
function names of the contract, unioned with the visible interface of its
nearest base only.  The source recursion terminates because the linearized
hierarchy is finite; the embedding uses explicit fuel, always called with
more fuel than the length of any well-formed inheritance chain. -/
def squashInterface : Nat → AST → ContractDefinition → List String
  | 0, _, _ => []
  | fuel + 1, ast, node =>
    let visibleFunctions :=
      ((node.functions.filter
          (fun func => isExternallyVisible func && !func.isConstructor)).map
        (fun func => func.name)).foldl addUnique []
    match getBaseContracts ast node with
    | [] => visibleFunctions
    | b1 :: _ => (squashInterface fuel ast b1).foldl addUnique visibleFunctions

/-- `resolveFunctionName`: a name resolves to the unique matching function of
the contract itself; more than one match is a fatal precondition violation;
no match recurses into the nearest base (failing fatally when there is
none).  Fuel as in `squashInterface`. -/
def resolveFunctionName :
    Nat → AST → ContractDefinition → String → Except Err FunctionDefinition
  | 0, _, _, functionName =>
    .error (Err.TranspileFailedError ("Failed to find " ++ functionName))
  | fuel + 1, ast, node, functionName =>
    let matched := node.functions.filter (fun f => f.name == functionName)
    if 1 < matched.length then
      .error (Err.TranspileFailedError
        ("InheritanceInliner expects unique function names, was IdentifierManger run? Found multiple "
          ++ functionName ++ " in " ++ node.name))
    else
      match matched with
      | [m] => .ok m
      | _ =>
        match getBaseContracts ast node with
        | [] =>
          .error (Err.TranspileFailedError
            ("Failed to find " ++ functionName ++ " in " ++ node.name))
        | b1 :: _ => resolveFunctionName fuel ast b1 functionName

/-- Resolving a list of names left to right, failing on the first error
(the source's `[...visibleFunctionNames].map((name) => resolveFunctionName(node, name))`). -/
def resolveList (fuel : Nat) (ast : AST) (node : ContractDefinition) :
    List String → Except Err (List FunctionDefinition)
  | [] => .ok []
  | nm :: nms => do
    let f ← resolveFunctionName fuel ast node nm
    let fs ← resolveList fuel ast node nms
    .ok (f :: fs)

/-- `createDelegatingFunction`: clones the parameter shapes of the resolved
function, asserts it is a plain member function, rejects constructors, and
builds a new function with the original name and signature whose body is a
single return statement calling the delegate with the (cloned) parameters
forwarded positionally. -/
def createDelegatingFunction (funcToCopy delegate : FunctionDefinition)
    (scope : Nat) (n : Nat) : Except Err (FunctionDefinition × Nat) :=
  let (inputParams, n1) := cloneParameterList funcToCopy.parameters n
  let (retParams, n2) := cloneParameterList funcToCopy.returnParameters n1
  if funcToCopy.kind != FunctionKind.Function then
    .error (Err.AssertionError
      ("Attempted to copy non-member function " ++ funcToCopy.name))
  else if funcToCopy.isConstructor then
    .error (Err.NotSupportedYetError "Inherited constructors is not implemented yet")
  else
    let (funcId, n3) := reserveId n2
    let (mods, n4) := cloneModifierInvocationList funcToCopy.modifiers n3
    let (blockId, n5) := reserveId n4
    let (returnId, n6) := reserveId n5
    let (callId, n7) := reserveId n6
    let (args, n8) := createIdentifiers inputParams.parameters n7
    .ok ({ id := funcId, scope := scope, kind := funcToCopy.kind,
           name := funcToCopy.name, virtual := funcToCopy.virtual,
           visibility := funcToCopy.visibility,
           stateMutability := funcToCopy.stateMutability,
           isConstructor := funcToCopy.isConstructor,
           parameters := inputParams, returnParameters := retParams,
           modifiers := mods,
           body := some { id := blockId,
                          statements := [Statement.returnStmt returnId retParams.id
                            { id := callId, calleeId := delegate.id,
                              calleeName := delegate.name, args := args }] } }, n8)

/-- The loop body of `addNonoverridenPublicFunctions`: for each function to
move, look up its private clone in the remapping table (asserting it is
there) and create the delegating function. -/
def buildDelegates (idRemapping : List (Nat × FunctionDefinition)) (scope : Nat) :
    List FunctionDefinition → Nat → Except Err (List FunctionDefinition × Nat)
  | [], n => .ok ([], n)
  | f :: fs, n =>
    match jsMapGet idRemapping f.id with
    | none =>
      .error (Err.AssertionError
        ("Unable to find inlined base function for " ++ f.name))
    | some privateFunc => do
      let (d, n1) ← createDelegatingFunction f privateFunc scope n
      let (ds, n2) ← buildDelegates idRemapping scope fs n1
      .ok (d :: ds, n2)

/-- `addNonoverridenPublicFunctions`: resolve every visible interface name,
keep those whose implementation is owned by a base contract, and append a
delegating function for each. -/
def addNonoverridenPublicFunctions (node : ContractDefinition)
    (idRemapping : List (Nat × FunctionDefinition)) (ast : AST) :
    Except Err (ContractDefinition × AST) := do
  let fuel := ast.contracts.length + 1
  let visibleFunctionNames := squashInterface fuel ast node
  let resolvedVisibleFunctions ← resolveList fuel ast node visibleFunctionNames
  let functionsToMove := resolvedVisibleFunctions.filter (fun f => f.scope != node.id)
  let (delegates, n) ← buildDelegates idRemapping node.id functionsToMove ast.nextId
  .ok ({ node with functions := node.functions ++ delegates },
       { ast with nextId := n })

/-- The insertion-ordered, name-keyed merge map of `addStorageVariables`:
bases are traversed farthest-to-nearest (`getBaseContracts(node).reverse()`),
and each base's state variables are `Map.set` into the map, so a nearer
base's variable replaces a farther one's value while keeping its position. -/
def inheritedVariablesMap (ast : AST) (node : ContractDefinition) :
    List (String × VariableDeclaration) :=
  ((getBaseContracts ast node).reverse).foldl
    (fun m base =>
      base.stateVariables.foldl (fun m decl => jsMapSet m decl.name decl) m)
    []

/-- `addStorageVariables`: each entry of the merge map is cloned and inserted
at the very beginning of the contract's variable list (`insertAtBeginning`),
one after the other, and the remapping table maps the original variable's id
to its clone. -/
def addStorageVariables (node : ContractDefinition)
    (idRemapping : List (Nat × VariableDeclaration)) (ast : AST) :
    ContractDefinition × List (Nat × VariableDeclaration) × AST :=
  let inheritedVariables := inheritedVariablesMap ast node
  let acc :=
    inheritedVariables.foldl
      (fun (acc : List VariableDeclaration × List (Nat × VariableDeclaration) × Nat) p =>
        let (vars, remap, n) := acc
        let (newVariable, n') := cloneVariableDeclaration p.2 n
        (newVariable :: vars, jsMapSet remap p.2.id newVariable, n'))
      (node.stateVariables, idRemapping, ast.nextId)
  ({ node with stateVariables := acc.1 }, acc.2.1, { ast with nextId := acc.2.2 })

/-- `addNonOverridenModifiers`: starting from the node's own modifier names,
walk the bases nearest-to-farthest and clone each modifier whose name is not
yet taken, appending the clone as a child. -/
def addNonOverridenModifiers (node : ContractDefinition)
    (idRemapping : List (Nat × ModifierDefinition)) (ast : AST) :
    ContractDefinition × List (Nat × ModifierDefinition) × AST :=
  let modifierNames := node.modifiers.foldl (fun l m => addUnique l m.name) []
  let acc :=
    (getBaseContracts ast node).foldl
      (fun acc contract =>
        contract.modifiers.foldl
          (fun (acc2 : List String × List ModifierDefinition ×
                       List (Nat × ModifierDefinition) × Nat) m =>
            let (names, added, remap, n) := acc2
            if m.name ∈ names then (names, added, remap, n)
            else
              let (clonedModifier, n') := cloneModifierDefinition m n
              (names ++ [m.name], added ++ [clonedModifier],
               jsMapSet remap m.id clonedModifier, n'))
          acc)
      (modifierNames, [], idRemapping, ast.nextId)
  ({ node with modifiers := node.modifiers ++ acc.2.1 }, acc.2.2.1,
   { ast with nextId := acc.2.2.2 })

/-- `updateReferencedDeclarations`: every identifier or identifier-path
reference whose target is a key of the remapping table is redirected (id and
name) to the clone; a member access whose target is a key is replaced by a
fresh identifier referencing the clone. -/
def updateReferencedDeclarations (node : ContractDefinition)
    (idRemapping : Nat → Option (Nat × String)) (ast : AST) :
    ContractDefinition × AST :=
  let acc :=
    node.refs.foldl
      (fun (acc : List RefNode × Nat) r =>
        let (rs, n) := acc
        match r with
        | RefNode.identifier rid _ refD =>
          match idRemapping refD with
          | some (newId, newName) => (rs ++ [RefNode.identifier rid newName newId], n)
          | none => (rs ++ [r], n)
        | RefNode.identifierPath rid _ refD =>
          match idRemapping refD with
          | some (newId, newName) =>
            (rs ++ [RefNode.identifierPath rid newName newId], n)
          | none => (rs ++ [r], n)
        | RefNode.memberAccess _ _ refD =>
          match idRemapping refD with
          | some (newId, newName) =>
            let (freshId, n') := reserveId n
            (rs ++ [RefNode.identifier freshId newName newId], n')
          | none => (rs ++ [r], n))
      ([], ast.nextId)
  ({ node with refs := acc.1 }, { ast with nextId := acc.2 })

/-- The per-specifier step of `getArguments`: inline constructor arguments at
an inheritance-specifier site are recorded for the base exactly when no entry
exists yet or the existing entry has strictly fewer arguments
(`argList === undefined || argList.length < specifier.vArguments.length`). -/
def specifierStep (a : List (Nat × List Expr)) (specifier : InheritanceSpecifier) :
    List (Nat × List Expr) :=
  match jsMapGet a specifier.baseId with
  | none => jsMapSet a specifier.baseId specifier.arguments
  | some argList =>
    if argList.length < specifier.arguments.length then
      jsMapSet a specifier.baseId specifier.arguments
    else a

/-- `getArguments`: explicit base-constructor invocations written as
modifier-style calls on the contract's constructor are recorded first
(unconditionally overwriting), then each inheritance specifier is processed
with `specifierStep`. -/
def getArguments (contract : ContractDefinition)
    (constructorFunc : Option FunctionDefinition)
    (args : List (Nat × List Expr)) : List (Nat × List Expr) :=
  let args1 :=
    match constructorFunc with
    | some f =>
      f.modifiers.foldl
        (fun a modInvocation =>
          match modInvocation.target with
          | ModTarget.contract cid => jsMapSet a cid modInvocation.arguments
          | ModTarget.modifierDef _ => a)
        args
    | none => args
  contract.inheritanceSpecifiers.foldl specifierStep args1

/-- `createFunctionFromConstructor`: clone the ancestor's constructor, turn
it into an ordinary private function named `__warp_constructor_<ancestor id>`. -/
def createFunctionFromConstructor (constructorFunc : FunctionDefinition)
    (id : Nat) (n : Nat) : FunctionDefinition × Nat :=
  let (newFunc, n1) := cloneFunctionDefinition constructorFunc n
  ({ newFunc with kind := FunctionKind.Function,
                  name := "__warp_constructor_" ++ toString id,
                  visibility := FunctionVisibility.Private,
                  isConstructor := false }, n1)

/-- `createDefaultConstructor`: a fresh, empty, public, non-payable
constructor scoped to the node (not attached to it by this helper). -/
def createDefaultConstructor (node : ContractDefinition) (n : Nat) :
    FunctionDefinition × Nat :=
  let (i, n1) := reserveId n
  let (ps, n2) := createParameterList [] n1
  let (rs, n3) := createParameterList [] n2
  ({ id := i, scope := node.id, kind := FunctionKind.Constructor, name := "",
     virtual := false, visibility := FunctionVisibility.Public,
     stateMutability := FunctionStateMutability.NonPayable,
     isConstructor := true, parameters := ps, returnParameters := rs,
     modifiers := [], body := none }, n3)

/-- The loop of `solveConstructorInheritance` phase (b): for each ancestor id
(already reversed, farthest first) that has a constructor, create the private
clone, check the collected argument count against the constructor's parameter
count, and build the call statement. -/
def buildConstructorCalls (constructors : List (Nat × FunctionDefinition))
    (args : List (Nat × List Expr)) :
    List Nat → Nat → Except Err (List FunctionDefinition × List Statement × Nat)
  | [], n => .ok ([], [], n)
  | contractId :: rest, n =>
    match jsMapGet constructors contractId with
    | none => buildConstructorCalls constructors args rest n
    | some constructorFunc =>
      let (newFunc, n1) := createFunctionFromConstructor constructorFunc contractId n
      let argList := (jsMapGet args contractId).getD []
      if constructorFunc.parameters.parameters.length == argList.length then do
        let (stmtId, n2) := reserveId n1
        let (call, n3) := generateFunctionCall newFunc argList n2
        let (fs, ss, n4) ← buildConstructorCalls constructors args rest n3
        .ok (newFunc :: fs, Statement.exprStatement stmtId call :: ss, n4)
      else .error (Err.AssertionError "Wrong number of arguments in constructor")

/-- Replacing a function's body in place inside the contract (the source's
`ast.replaceNode(selfConstructor.vBody, newBody, selfConstructor)` /
`generateBody`). -/
def replaceFunctionBody (node : ContractDefinition) (fid : Nat) (newBody : Block) :
    ContractDefinition :=
  let fs := node.functions.map
    (fun f => if f.id == fid then { f with body := some newBody } else f)
  { node with functions := fs }

/-- `solveConstructorInheritance`: collect constructors and constructor
arguments over the full linearized list (self included), synthesize one
private constructor clone and one call statement per ancestor with a
constructor (farthest ancestor first), and prepend the call statements to the
contract's own constructor body.  When the contract declares no constructor,
the source creates a default one and generates its body, but never appends it
to the contract — the embedding mirrors that faithfully: the created default
constructor is dropped and only the id counter advances. -/
def solveConstructorInheritance (node : ContractDefinition) (ast : AST) :
    Except Err (ContractDefinition × AST) := do
  let lin := node.linearizedBaseContracts.filterMap (getContract ast)
  let (constructors, args) :=
    lin.foldl
      (fun (acc : List (Nat × FunctionDefinition) × List (Nat × List Expr)) contract =>
        let (cs, as') := acc
        let constructorFunc := vConstructor contract
        let cs' :=
          match constructorFunc with
          | some f => jsMapSet cs contract.id f
          | none => cs
        (cs', getArguments contract constructorFunc as'))
      ([], [])
  let (newFuncs, statements, n1) ←
    buildConstructorCalls constructors args
      ((node.linearizedBaseContracts.drop 1).reverse) ast.nextId
  let node1 := { node with functions := node.functions ++ newFuncs }
  let ast1 := { ast with nextId := n1 }
  if statements.isEmpty then .ok (node1, ast1)
  else
    match vConstructor node1 with
    | some selfConstructor =>
      match selfConstructor.body with
      | none =>
        let (newBody, n2) := createBlock statements ast1.nextId
        .ok (replaceFunctionBody node1 selfConstructor.id newBody,
             { ast1 with nextId := n2 })
      | some oldBody =>
        let (clonedBody, n2) := cloneBlock oldBody ast1.nextId
        let (newBody, n3) := createBlock (statements ++ clonedBody.statements) n2
        .ok (replaceFunctionBody node1 selfConstructor.id newBody,
             { ast1 with nextId := n3 })
    | none =>
      -- mirrors the source exactly: `createDefaultConstructor` allocates the
      -- constructor and `generateBody` builds its block, but the constructor
      -- is never appended to the node, so it is unreachable afterwards
      let (_defaultCtor, n2) := createDefaultConstructor node1 ast1.nextId
      let (_body, n3) := createBlock statements n2
      .ok (node1, { ast1 with nextId := n3 })

/-- `visitContractDefinition`: contracts that inherit from nothing are left
untouched; otherwise the four flatteners run, then the reference rewriter
with each remapping table.  (`commonVisit` dispatches no further work for
this pass: contracts do not nest.) -/
def visitContractDefinition (cid : Nat) (ast : AST) : Except Err AST :=
  match getContract ast cid with
  | none => .ok ast
  | some node =>
    if node.linearizedBaseContracts.length < 2 then .ok ast
    else do
      let (node1, ast1) ← solveConstructorInheritance node ast
      let (node2, functionRemapping, ast2) := addPrivateSuperFunctions node1 [] ast1
      let (node3, ast3) ← addNonoverridenPublicFunctions node2 functionRemapping ast2
      let (node4, variableRemapping, ast4) := addStorageVariables node3 [] ast3
      let (node5, modifierRemapping, ast5) := addNonOverridenModifiers node4 [] ast4
      let (node6, ast6) := updateReferencedDeclarations node5
        (fun i => (jsMapGet functionRemapping i).map (fun f => (f.id, f.name))) ast5
      let (node7, ast7) := updateReferencedDeclarations node6
        (fun i => (jsMapGet variableRemapping i).map (fun v => (v.id, v.name))) ast6
      let (node8, ast8) := updateReferencedDeclarations node7
        (fun i => (jsMapGet modifierRemapping i).map (fun m => (m.id, m.name))) ast7
      .ok (setContract ast8 node8)

/-- Visiting each contract of a round in order (`mostDerivedContracts.forEach`). -/
def visitAll (ids : List Nat) (ast : AST) : Except Err AST :=
  ids.foldlM (fun a cid => visitContractDefinition cid a) ast

/-- Whether the contract with id `oid` lists the contract with id `cid`
among its base contracts
(`getBaseContracts(otherContract).includes(derivedContract)`). -/
def baseRel (ast : AST) (oid cid : Nat) : Bool :=
  match getContract ast oid with
  | none => false
  | some o => (getBaseContracts ast o).any (fun b => b.id == cid)

/-- The per-round filter of `InheritanceInliner.map`: the pending contracts
not listed as a base by any pending contract. -/
def mostDerivedOf (rel : Nat → Nat → Bool) (pending : List Nat) : List Nat :=
  pending.filter (fun cid => !(pending.any (fun oid => rel oid cid)))

/-- The round structure of the scheduler, over an abstract base relation:
repeatedly split off the currently most-derived subset, failing when it is
empty while contracts remain.  The fuel only bounds the number of rounds;
`schedule` supplies `pending.length`, which always suffices because every
successful round removes at least one contract. -/
def scheduleF (rel : Nat → Nat → Bool) : Nat → List Nat → Except Err (List (List Nat))
  | _, [] => .ok []
  | 0, _ :: _ => .error (Err.TranspileFailedError "Fuel exhausted")
  | fuel + 1, pending =>
    let mostDerived := mostDerivedOf rel pending
    if mostDerived.isEmpty then
      .error (Err.TranspileFailedError "Unable to serialise contracts")
    else do
      let rest ← scheduleF rel fuel
        (pending.filter (fun c => !(mostDerived.contains c)))
      .ok (mostDerived :: rest)

/-- The scheduler's round decomposition for a pending set. -/
def schedule (rel : Nat → Nat → Bool) (pending : List Nat) :
    Except Err (List (List Nat)) :=
  scheduleF rel pending.length pending

/-- The loop of `InheritanceInliner.map`, fuelled like `scheduleF`: find the
most-derived pending contracts, fail if none remain find-able, visit each,
drop them from the pending set, repeat. -/
def mapLoopF : Nat → List Nat → AST → Except Err AST
  | _, [], ast => .ok ast
  | 0, _ :: _, _ => .error (Err.TranspileFailedError "Fuel exhausted")
  | fuel + 1, pending, ast =>
    let mostDerived := mostDerivedOf (baseRel ast) pending
    if mostDerived.isEmpty then
      .error (Err.TranspileFailedError "Unable to serialise contracts")
    else do
      let ast2 ← visitAll mostDerived ast
      mapLoopF fuel (pending.filter (fun c => !(mostDerived.contains c))) ast2

/-- The ids of the compilation unit's contracts, in root order. -/
def idsOf (ast : AST) : List Nat := ast.contracts.map (fun c => c.id)

/-- `InheritanceInliner.map`: flatten every contract of the compilation unit
in scheduler order. -/
def InheritanceInliner.map (ast : AST) : Except Err AST :=
  mapLoopF (idsOf ast).length (idsOf ast) ast

/-- The shape of a parameter list: the (name, type) pairs in order. -/
def plShape (pl : ParameterList) : List (String × String) :=
  pl.parameters.map (fun v => (v.name, v.typeString))

/-- The arguments of a call forward the given parameters positionally: the
i-th argument is an identifier referencing the i-th parameter. -/
def forwardsParams (params : List VariableDeclaration) (args : List Expr) : Prop :=
  List.Forall₂ (fun v e => ∃ aid, e = Expr.identifierE aid v.name v.id) params args

/-- `d` is the delegating function synthesized for the resolved inherited
function `f`: same unsuffixed name, visibility, mutability and parameter and
return shapes, and a body that is a single return statement calling `f`'s
private clone (looked up in the remapping table) with `d`'s own parameters
forwarded positionally. -/
def delegatesFor (idRemapping : List (Nat × FunctionDefinition))
    (f d : FunctionDefinition) : Prop :=
  ∃ privateFunc, jsMapGet idRemapping f.id = some privateFunc ∧
    d.name = f.name ∧ d.visibility = f.visibility ∧
    d.stateMutability = f.stateMutability ∧
    plShape d.parameters = plShape f.parameters ∧
    plShape d.returnParameters = plShape f.returnParameters ∧
    ∃ blk, d.body = some blk ∧
      ∃ rid cid args,
        blk.statements =
          [Statement.returnStmt rid d.returnParameters.id
            { id := cid, calleeId := privateFunc.id,
              calleeName := privateFunc.name, args := args }] ∧
        forwardsParams d.parameters.parameters args

/-- Whether a `createDelegatingFunction` result is the unsupported-input
("not yet supported") failure. -/
def resultIsNotSupported (r : Except Err (FunctionDefinition × Nat)) : Bool :=
  match r with
  | .error (Err.NotSupportedYetError _) => true
  | _ => false

/-! Concrete fixtures used by the witnesses and counterexamples. -/

/-- A base contract with no members: id 1, linearization `[1]`. -/
def baseW : ContractDefinition :=
  { id := 1, name := "Base", linearizedBaseContracts := [1], functions := [],
    stateVariables := [], modifiers := [], inheritanceSpecifiers := [], refs := [] }

/-- A derived contract with no members: id 2, linearization `[2, 1]`. -/
def derivedW : ContractDefinition :=
  { id := 2, name := "Derived", linearizedBaseContracts := [2, 1], functions := [],
    stateVariables := [], modifiers := [], inheritanceSpecifiers := [], refs := [] }

/-- A two-contract compilation unit, `Derived extends Base`. -/
def astW : AST := { nextId := 100, contracts := [baseW, derivedW] }

/-- `function foo() external view returns (uint256 r)` owned by contract 1. -/
def fooBase : FunctionDefinition :=
  { id := 10, scope := 1, kind := FunctionKind.Function, name := "foo",
    virtual := false, visibility := FunctionVisibility.External,
    stateMutability := FunctionStateMutability.View, isConstructor := false,
    parameters := { id := 11, parameters := [] },
    returnParameters :=
      { id := 12, parameters := [{ id := 13, name := "r", typeString := "uint256" }] },
    modifiers := [], body := some { id := 14, statements := [Statement.otherStmt 15 0] } }

/-- A second function named `foo` (used to exercise the ambiguity error). -/
def fooDup : FunctionDefinition :=
  { fooBase with id := 16, parameters := { id := 17, parameters := [] },
                 returnParameters := { id := 18, parameters := [] },
                 body := none }

/-- Base contract declaring `foo`. -/
def baseB : ContractDefinition := { baseW with functions := [fooBase] }

/-- Derived contract declaring nothing, inheriting `foo`. -/
def derivedB : ContractDefinition := derivedW

/-- Compilation unit for the interface-promotion fixture. -/
def astB : AST := { nextId := 100, contracts := [baseB, derivedB] }

/-- A contract declaring two functions named `foo` (ambiguous resolution). -/
def dupContract : ContractDefinition :=
  { id := 3, name := "Dup", linearizedBaseContracts := [3],
    functions := [fooBase, fooDup], stateVariables := [], modifiers := [],
    inheritanceSpecifiers := [], refs := [] }

/-- The private-super-function phase applied to the promotion fixture. -/
def superB : ContractDefinition × List (Nat × FunctionDefinition) × AST :=
  addPrivateSuperFunctions derivedB [] astB

/-- The promotion phase applied after `superB` (its successful result). -/
def promoteB : ContractDefinition × AST :=
  (addNonoverridenPublicFunctions superB.1 superB.2.1 superB.2.2).toOption.getD default

/-- A parameterless constructor owned by contract 1. -/
def ctorBase : FunctionDefinition :=
  { id := 20, scope := 1, kind := FunctionKind.Constructor, name := "",
    virtual := false, visibility := FunctionVisibility.Public,
    stateMutability := FunctionStateMutability.NonPayable, isConstructor := true,
    parameters := { id := 21, parameters := [] },
    returnParameters := { id := 22, parameters := [] },
    modifiers := [], body := some { id := 23, statements := [] } }

/-- Base contract declaring only a constructor. -/
def baseC : ContractDefinition := { baseW with functions := [ctorBase] }

/-- Derived contract with no constructor of its own. -/
def derivedC : ContractDefinition := derivedW

/-- Compilation unit for the dropped-constructor fixture. -/
def astC : AST := { nextId := 100, contracts := [baseC, derivedC] }

/-- The successful result of `solveConstructorInheritance` on that fixture. -/
def ctorRes : ContractDefinition × AST :=
  (solveConstructorInheritance derivedC astC).toOption.getD default

/-- Base contract declaring state variable `x`. -/
def base2 : ContractDefinition :=
  { baseW with stateVariables := [{ id := 30, name := "x", typeString := "uint8" }] }

/-- Derived contract declaring its own state variable `x` (shadowing). -/
def derived2 : ContractDefinition :=
  { derivedW with stateVariables := [{ id := 31, name := "x", typeString := "uint8" }] }

/-- Compilation unit for the storage-shadowing fixture. -/
def ast2 : AST := { nextId := 100, contracts := [base2, derived2] }

/-- Base contract declaring state variables `y` then `z`. -/
def base3 : ContractDefinition :=
  { baseW with stateVariables := [{ id := 40, name := "y", typeString := "uint8" },
                                  { id := 41, name := "z", typeString := "uint8" }] }

/-- Derived contract declaring its own state variable `w`. -/
def derived3 : ContractDefinition :=
  { derivedW with stateVariables := [{ id := 42, name := "w", typeString := "uint8" }] }

/-- Compilation unit for the storage-order fixture. -/
def ast3 : AST := { nextId := 100, contracts := [base3, derived3] }

/-- An opaque argument expression. -/
def exprA : Expr := Expr.otherE 50 0

/-- Another opaque argument expression. -/
def exprB : Expr := Expr.otherE 51 1

/-- An inheritance specifier passing one argument to base 5. -/
def spec6 : InheritanceSpecifier := { id := 52, baseId := 5, arguments := [exprB] }

/-- A contract whose only inheritance specifier is `spec6`. -/
def contract6 : ContractDefinition :=
  { id := 7, name := "C6", linearizedBaseContracts := [7, 5], functions := [],
    stateVariables := [], modifiers := [], inheritanceSpecifiers := [spec6],
    refs := [] }

/-- An argument map already holding a one-argument entry for base 5. -/
def argsMap6 : List (Nat × List Expr) := [(5, [exprA])]

/-- A genuine constructor node: kind `Constructor` and the constructor flag. -/
def ctor9 : FunctionDefinition := { ctorBase with name := "bad" }

/-- An inconsistent node: ordinary `Function` kind with the constructor flag
set (the only shape on which the source's "not yet supported" branch fires). -/
def ctor9fn : FunctionDefinition := { ctor9 with kind := FunctionKind.Function }

/-- Two contracts each listing the other as a base: an unserialisable set. -/
def cycA : ContractDefinition := { baseW with linearizedBaseContracts := [1, 2] }

/-- The second half of the cyclic fixture. -/
def cycB : ContractDefinition := { derivedW with linearizedBaseContracts := [2, 1] }

/-- The cyclic compilation unit. -/
def astCyc : AST := { nextId := 100, contracts := [cycA, cycB] }

/-- The scheduling-relevant signature of a contract id in an AST: the stored
contract's id and linearization.  `visitContractDefinition` never changes it,
which is what makes the scheduler's rounds independent of the visits. -/
def lookupSig (ast : AST) (x : Nat) : Option (Nat × List Nat) :=
  (getContract ast x).map (fun c => (c.id, c.linearizedBaseContracts))

/-! ## Lemmas about the JavaScript map model -/

theorem find_set_mem {K V : Type} [BEq K] [LawfulBEq K] (m : List (K × V)) (k : K)
    (v : V) (h : m.any (fun p => p.1 == k) = true) :
    (m.map (fun p => if p.1 == k then (k, v) else p)).find? (fun p => p.1 == k) =
      some (k, v) := by
  induction m with
  | nil => simp at h
  | cons q t ih =>
    by_cases hq : (q.1 == k) = true
    · simp [hq]
    · simp only [List.any_cons, hq, Bool.false_or] at h
      simp [hq, ih h]

theorem jsMapGet_set_self {K V : Type} [BEq K] [LawfulBEq K] (m : List (K × V))
    (k : K) (v : V) : jsMapGet (jsMapSet m k v) k = some v := by
  unfold jsMapSet
  by_cases h : m.any (fun p => p.1 == k) = true
  · simp [h, jsMapGet, find_set_mem m k v h]
  · simp only [h]
    have hnone : m.find? (fun p => p.1 == k) = none := by
      rw [List.find?_eq_none]
      intro p hp
      intro hpk
      exact h (List.any_of_mem hp hpk)
    simp [jsMapGet, List.find?_append, hnone]

/-! ## Claim 10: contracts without bases are left untouched -/

/-- C10: for every contract whose `linearizedBaseContracts` list has fewer
than two entries, `visitContractDefinition` returns immediately and the AST
is left entirely unchanged. -/
theorem claim10_no_bases_unchanged (ast : AST) (cid : Nat)
    (node : ContractDefinition) (hget : getContract ast cid = some node)
    (hlin : node.linearizedBaseContracts.length < 2) :
    visitContractDefinition cid ast = .ok ast := by
  simp [visitContractDefinition, hget, hlin]

theorem claim10_witness :
    getContract astB 1 = some baseB ∧
    baseB.linearizedBaseContracts.length < 2 ∧
    visitContractDefinition 1 astB = .ok astB :=
  ⟨by decide, by decide,
   claim10_no_bases_unchanged astB 1 baseB (by decide) (by decide)⟩

/-! ## Claim 9: delegating a constructor -/

/-- C9 (amended): a function with the constructor flag set fails
`createDelegatingFunction` with the "not yet supported" signal only when its
`kind` is the ordinary `Function` kind; a genuine constructor node (kind
`Constructor`) fails the earlier member-function assertion instead. -/
theorem claim9_amended (f delegate : FunctionDefinition) (scope n : Nat)
    (h : f.isConstructor = true) :
    (f.kind = FunctionKind.Function →
      createDelegatingFunction f delegate scope n =
        .error (Err.NotSupportedYetError "Inherited constructors is not implemented yet"))
    ∧ (f.kind ≠ FunctionKind.Function →
      createDelegatingFunction f delegate scope n =
        .error (Err.AssertionError
          ("Attempted to copy non-member function " ++ f.name))) := by
  constructor
  · intro hk
    simp [createDelegatingFunction, hk, h]
  · intro hk
    simp [createDelegatingFunction, hk]

/-- C9 counterexample: on a genuine constructor (kind `Constructor`, flag
set), `createDelegatingFunction` does not fail with the "not yet supported"
signal; it fails with the internal-consistency assertion. -/
theorem claim9_counterexample :
    resultIsNotSupported (createDelegatingFunction ctor9 fooBase 0 100) = false ∧
    createDelegatingFunction ctor9 fooBase 0 100 =
      .error (Err.AssertionError "Attempted to copy non-member function bad") := by
  constructor
  · decide
  · decide

theorem claim9_amended_witness :
    ctor9fn.isConstructor = true ∧ ctor9.isConstructor = true ∧
    createDelegatingFunction ctor9fn fooBase 0 100 =
      .error (Err.NotSupportedYetError "Inherited constructors is not implemented yet") ∧
    createDelegatingFunction ctor9 fooBase 0 100 =
      .error (Err.AssertionError "Attempted to copy non-member function bad") :=
  ⟨rfl, rfl, (claim9_amended ctor9fn fooBase 0 100 rfl).1 rfl,
   (claim9_amended ctor9 fooBase 0 100 rfl).2 (by decide)⟩

/-! ## Claim 6: the specifier-argument overwrite rule -/

/-- C6 (amended): processing one inheritance specifier overwrites the
ancestor's collected entry exactly when no entry exists or the specifier
supplies strictly more arguments than the existing entry; otherwise
(including when the counts are equal) the existing entry is kept. -/
theorem claim6_amended (a : List (Nat × List Expr)) (s : InheritanceSpecifier) :
    jsMapGet (specifierStep a s) s.baseId =
      some (match jsMapGet a s.baseId with
            | none => s.arguments
            | some l => if l.length < s.arguments.length then s.arguments else l) := by
  unfold specifierStep
  cases hg : jsMapGet a s.baseId with
  | none => simp [jsMapGet_set_self]
  | some l =>
    by_cases hl : l.length < s.arguments.length
    · simp [hl, jsMapGet_set_self]
    · simp [hl, hg]

/-- C6 counterexample: an entry with one argument already recorded and a
specifier supplying exactly one argument — at least as many, so the claim
says the specifier's arguments are used — is kept unchanged by the code. -/
theorem claim6_counterexample :
    spec6.arguments.length = 1 ∧
    jsMapGet argsMap6 spec6.baseId = some [exprA] ∧
    ([exprA] : List Expr).length ≤ spec6.arguments.length ∧
    jsMapGet (getArguments contract6 none argsMap6) spec6.baseId = some [exprA] ∧
    jsMapGet (getArguments contract6 none argsMap6) spec6.baseId ≠
      some spec6.arguments := by
  refine ⟨by decide, by decide, by decide, by decide, by decide⟩

/-! ## Claim 4: base-constructor call synthesis drops the calls when the
derived contract has no constructor -/

/-- C4 (code bug): `Base` declares a parameterless constructor and `Derived`
declares none; `solveConstructorInheritance` appends the private clone
`__warp_constructor_1` but the synthesized call statements end up in a
default constructor that is never attached, so the flattened `Derived` still
has no constructor at all and the base-initialization calls are dropped. -/
theorem claim4_dropped_constructor :
    solveConstructorInheritance derivedC astC = .ok ctorRes ∧
    vConstructor derivedC = none ∧
    vConstructor baseC = some ctorBase ∧
    vConstructor ctorRes.1 = none ∧
    ctorRes.1.functions.map (fun f => f.name) = ["__warp_constructor_1"] ∧
    ctorRes.1.functions.map (fun f => f.visibility) = [FunctionVisibility.Private] := by
  refine ⟨by decide, by decide, by decide, by decide, by decide, by decide⟩

/-! ## Claims 2 and 3: storage-variable flattening -/

/-- C2 counterexample: `Base` and `Derived` both declare `x`; after
`addStorageVariables` the flattened `Derived` holds two variables named `x`,
not one. -/
theorem claim2_counterexample :
    (addStorageVariables derived2 [] ast2).1.stateVariables.countP
        (fun v => v.name == "x") = 2 ∧
    ¬ ((addStorageVariables derived2 [] ast2).1.stateVariables.countP
        (fun v => v.name == "x") = 1) := by
  refine ⟨by decide, by decide⟩

/-- C3 counterexample: `Base` declares `y` then `z`; the merge map iterates
`[y, z]`, but the clones end up at the front of `Derived`'s variable list in
the order `[z, y]` — the reverse of the iteration order the claim states. -/
theorem claim3_counterexample :
    ((addStorageVariables derived3 [] ast3).1.stateVariables.map
        (fun v => v.name)) = ["z", "y", "w"] ∧
    (inheritedVariablesMap ast3 derived3).map (fun p => p.1) = ["y", "z"] ∧
    ((addStorageVariables derived3 [] ast3).1.stateVariables.map
        (fun v => v.name)) ≠
      ((inheritedVariablesMap ast3 derived3).map (fun p => p.1) ++
        derived3.stateVariables.map (fun v => v.name)) := by
  refine ⟨by decide, by decide, by decide⟩

/-! ## Claim 7: function-name resolution -/

/-- C7: resolving a name against a contract returns the contract's own
unique match; fails fatally with the precondition-violation
(`TranspileFailedError`) message when the contract declares more than one
function with the name; and when it declares none, recurses into the nearest
base `b1` only. -/
theorem claim7_resolution (fuel : Nat) (ast : AST) (node : ContractDefinition)
    (functionName : String) :
    (∀ f, node.functions.filter (fun g => g.name == functionName) = [f] →
      resolveFunctionName (fuel + 1) ast node functionName = .ok f)
    ∧ (1 < (node.functions.filter (fun g => g.name == functionName)).length →
      resolveFunctionName (fuel + 1) ast node functionName =
        .error (Err.TranspileFailedError
          ("InheritanceInliner expects unique function names, was IdentifierManger run? Found multiple "
            ++ functionName ++ " in " ++ node.name)))
    ∧ (node.functions.filter (fun g => g.name == functionName) = [] →
      ∀ b1 rest, getBaseContracts ast node = b1 :: rest →
        resolveFunctionName (fuel + 1) ast node functionName =
          resolveFunctionName fuel ast b1 functionName) := by
  refine ⟨?_, ?_, ?_⟩
  · intro f h
    simp [resolveFunctionName, h]
  · intro h
    simp [resolveFunctionName, h]
  · intro h b1 rest hb
    simp [resolveFunctionName, h, hb]

theorem claim7_resolution_witness :
    baseB.functions.filter (fun g => g.name == "foo") = [fooBase] ∧
    resolveFunctionName 3 astB baseB "foo" = .ok fooBase ∧
    1 < (dupContract.functions.filter (fun g => g.name == "foo")).length ∧
    resolveFunctionName 3 astB dupContract "foo" =
      .error (Err.TranspileFailedError
        ("InheritanceInliner expects unique function names, was IdentifierManger run? Found multiple foo in Dup")) ∧
    derivedB.functions.filter (fun g => g.name == "foo") = [] ∧
    getBaseContracts astB derivedB = [baseB] ∧
    resolveFunctionName 3 astB derivedB "foo" =
      resolveFunctionName 2 astB baseB "foo" :=
  ⟨by decide, (claim7_resolution 2 astB baseB "foo").1 fooBase (by decide),
   by decide, (claim7_resolution 2 astB dupContract "foo").2.1 (by decide),
   by decide, by decide,
   (claim7_resolution 2 astB derivedB "foo").2.2 (by decide) baseB [] (by decide)⟩

/-! ## Lemmas about the storage-variable merge map -/

theorem storage_fold_pairs (entries : List (String × VariableDeclaration))
    (init : List VariableDeclaration) (remap : List (Nat × VariableDeclaration))
    (n : Nat) :
    ((entries.foldl
        (fun (acc : List VariableDeclaration × List (Nat × VariableDeclaration) × Nat) p =>
          let (vars, remap, n) := acc
          let (newVariable, n') := cloneVariableDeclaration p.2 n
          (newVariable :: vars, jsMapSet remap p.2.id newVariable, n'))
        (init, remap, n)).1).map (fun v => (v.name, v.typeString)) =
      (entries.map (fun p => (p.2.name, p.2.typeString))).reverse ++
        init.map (fun v => (v.name, v.typeString)) := by
  induction entries generalizing init remap n with
  | nil => simp
  | cons p t ih =>
    simp only [List.foldl_cons, List.map_cons, List.reverse_cons, List.append_assoc]
    rw [ih]
    simp [cloneVariableDeclaration, reserveId]

theorem jsMapSet_keys_of_any {K V : Type} [BEq K] [LawfulBEq K]
    (m : List (K × V)) (k : K) (v : V) (h : m.any (fun p => p.1 == k) = true) :
    (jsMapSet m k v).map Prod.fst = m.map Prod.fst := by
  unfold jsMapSet
  rw [if_pos h, List.map_map]
  refine List.map_congr_left ?_
  intro p _
  by_cases hp : (p.1 == k) = true
  · simp [hp, (eq_of_beq hp).symm]
  · simp [hp]

theorem jsMapSet_keys_of_not_any {K V : Type} [BEq K]
    (m : List (K × V)) (k : K) (v : V) (h : ¬ m.any (fun p => p.1 == k) = true) :
    (jsMapSet m k v).map Prod.fst = m.map Prod.fst ++ [k] := by
  unfold jsMapSet
  rw [if_neg h, List.map_append]
  rfl

theorem mem_keys_jsMapSet {K V : Type} [BEq K] [LawfulBEq K]
    (m : List (K × V)) (k : K) (v : V) (x : K) :
    x ∈ (jsMapSet m k v).map Prod.fst ↔ x ∈ m.map Prod.fst ∨ x = k := by
  by_cases h : m.any (fun p => p.1 == k) = true
  · rw [jsMapSet_keys_of_any m k v h]
    constructor
    · exact Or.inl
    · rintro (hx | rfl)
      · exact hx
      · rcases List.any_eq_true.mp h with ⟨p, hp, hpk⟩
        have : p.1 = x := eq_of_beq hpk
        exact this ▸ List.mem_map_of_mem Prod.fst hp
  · rw [jsMapSet_keys_of_not_any m k v h]
    simp

theorem keys_nodup_jsMapSet {K V : Type} [BEq K] [LawfulBEq K]
    (m : List (K × V)) (k : K) (v : V) (h : (m.map Prod.fst).Nodup) :
    ((jsMapSet m k v).map Prod.fst).Nodup := by
  by_cases ha : m.any (fun p => p.1 == k) = true
  · rw [jsMapSet_keys_of_any m k v ha]; exact h
  · rw [jsMapSet_keys_of_not_any m k v ha]
    rw [List.nodup_append]
    refine ⟨h, List.nodup_singleton k, ?_⟩
    intro x hx hk
    rcases List.mem_singleton.mp hk with rfl
    rcases List.mem_map.mp hx with ⟨p, hp, rfl⟩
    exact ha (List.any_of_mem hp (beq_self_eq_true p.1))

theorem vars_fold_mem_keys (decls : List VariableDeclaration)
    (m : List (String × VariableDeclaration)) (nm : String) :
    nm ∈ ((decls.foldl (fun m decl => jsMapSet m decl.name decl) m).map Prod.fst) ↔
      nm ∈ m.map Prod.fst ∨ ∃ d ∈ decls, d.name = nm := by
  induction decls generalizing m with
  | nil => simp
  | cons d t ih =>
    simp only [List.foldl_cons, ih, mem_keys_jsMapSet]
    constructor
    · rintro (⟨hx | rfl⟩ | ⟨d', hd', rfl⟩)
      · exact Or.inl hx
      · exact Or.inr ⟨d, List.mem_cons_self d t, rfl⟩
      · exact Or.inr ⟨d', List.mem_cons_of_mem d hd', rfl⟩
    · rintro (hx | ⟨d', hd', rfl⟩)
      · exact Or.inl (Or.inl hx)
      · rcases List.mem_cons.mp hd' with rfl | hd''
        · exact Or.inl (Or.inr rfl)
        · exact Or.inr ⟨d', hd'', rfl⟩

theorem vars_fold_keys_nodup (decls : List VariableDeclaration)
    (m : List (String × VariableDeclaration)) (h : (m.map Prod.fst).Nodup) :
    (((decls.foldl (fun m decl => jsMapSet m decl.name decl) m)).map Prod.fst).Nodup := by
  induction decls generalizing m with
  | nil => exact h
  | cons d t ih =>
    simp only [List.foldl_cons]
    exact ih _ (keys_nodup_jsMapSet _ _ _ h)

theorem bases_fold_mem_keys (bases : List ContractDefinition)
    (m : List (String × VariableDeclaration)) (nm : String) :
    nm ∈ ((bases.foldl
        (fun m base =>
          base.stateVariables.foldl (fun m decl => jsMapSet m decl.name decl) m)
        m).map Prod.fst) ↔
      nm ∈ m.map Prod.fst ∨ ∃ b ∈ bases, ∃ d ∈ b.stateVariables, d.name = nm := by
  induction bases generalizing m with
  | nil => simp
  | cons b t ih =>
    simp only [List.foldl_cons, ih, vars_fold_mem_keys]
    constructor
    · rintro (⟨hx | ⟨d, hd, rfl⟩⟩ | ⟨b', hb', d', hd', rfl⟩)
      · exact Or.inl hx
      · exact Or.inr ⟨b, List.mem_cons_self b t, d, hd, rfl⟩
      · exact Or.inr ⟨b', List.mem_cons_of_mem b hb', d', hd', rfl⟩
    · rintro (hx | ⟨b', hb', d', hd', rfl⟩)
      · exact Or.inl (Or.inl hx)
      · rcases List.mem_cons.mp hb' with rfl | hb''
        · exact Or.inl (Or.inr ⟨d', hd', rfl⟩)
        · exact Or.inr ⟨b', hb'', d', hd', rfl⟩

theorem bases_fold_keys_nodup (bases : List ContractDefinition)
    (m : List (String × VariableDeclaration)) (h : (m.map Prod.fst).Nodup) :
    ((bases.foldl
        (fun m base =>
          base.stateVariables.foldl (fun m decl => jsMapSet m decl.name decl) m)
        m).map Prod.fst).Nodup := by
  induction bases generalizing m with
  | nil => exact h
  | cons b t ih =>
    simp only [List.foldl_cons]
    exact ih _ (vars_fold_keys_nodup _ _ h)

theorem mergedMap_mem_keys (ast : AST) (node : ContractDefinition) (nm : String) :
    nm ∈ ((inheritedVariablesMap ast node).map Prod.fst) ↔
      ∃ b ∈ getBaseContracts ast node, ∃ d ∈ b.stateVariables, d.name = nm := by
  unfold inheritedVariablesMap
  rw [bases_fold_mem_keys]
  simp

theorem mergedMap_keys_nodup (ast : AST) (node : ContractDefinition) :
    ((inheritedVariablesMap ast node).map Prod.fst).Nodup := by
  unfold inheritedVariablesMap
  exact bases_fold_keys_nodup _ _ (by simp)

theorem jsMapSet_val_name (m : List (String × VariableDeclaration))
    (d : VariableDeclaration) (h : ∀ p ∈ m, p.1 = p.2.name) :
    ∀ p ∈ jsMapSet m d.name d, p.1 = p.2.name := by
  intro p hp
  unfold jsMapSet at hp
  by_cases ha : m.any (fun q => q.1 == d.name) = true
  · rw [if_pos ha] at hp
    rcases List.mem_map.mp hp with ⟨q, hq, rfl⟩
    by_cases hqd : (q.1 == d.name) = true
    · simp [hqd]
    · simp [hqd]
      exact h q hq
  · rw [if_neg ha] at hp
    rcases List.mem_append.mp hp with hq | hq
    · exact h p hq
    · rcases List.mem_singleton.mp hq with rfl
      rfl

theorem mergedMap_val_name (ast : AST) (node : ContractDefinition) :
    ∀ p ∈ inheritedVariablesMap ast node, p.1 = p.2.name := by
  unfold inheritedVariablesMap
  generalize (getBaseContracts ast node).reverse = bases
  have main : ∀ (bases : List ContractDefinition)
      (m : List (String × VariableDeclaration)), (∀ p ∈ m, p.1 = p.2.name) →
      ∀ p ∈ bases.foldl
        (fun m base =>
          base.stateVariables.foldl (fun m decl => jsMapSet m decl.name decl) m) m,
        p.1 = p.2.name := by
    intro bases
    induction bases with
    | nil => intro m hm; exact hm
    | cons b t ih =>
      intro m hm
      simp only [List.foldl_cons]
      refine ih _ ?_
      have inner : ∀ (decls : List VariableDeclaration)
          (m : List (String × VariableDeclaration)), (∀ p ∈ m, p.1 = p.2.name) →
          ∀ p ∈ decls.foldl (fun m decl => jsMapSet m decl.name decl) m,
            p.1 = p.2.name := by
        intro decls
        induction decls with
        | nil => intro m hm; exact hm
        | cons d dt dih =>
          intro m hm
          simp only [List.foldl_cons]
          exact dih _ (jsMapSet_val_name m d hm)
      exact inner b.stateVariables m hm
  exact main bases [] (by intro p hp; cases hp)

/-! ## Claims 2 and 3: amended storage-flattening statements -/

theorem addStorageVariables_pairs (node : ContractDefinition)
    (idRemapping : List (Nat × VariableDeclaration)) (ast : AST) :
    ((addStorageVariables node idRemapping ast).1).stateVariables.map
        (fun v => (v.name, v.typeString)) =
      ((inheritedVariablesMap ast node).map
          (fun p => (p.2.name, p.2.typeString))).reverse ++
        node.stateVariables.map (fun v => (v.name, v.typeString)) := by
  unfold addStorageVariables
  simp only []
  exact storage_fold_pairs (inheritedVariablesMap ast node) node.stateVariables
    idRemapping ast.nextId

/-- C3 (amended): the cloned inherited state variables are placed at the very
front of the contract's variable list in exactly the *reverse* of the merge
map's final iteration order (each clone is inserted at position 0 in turn),
followed by the contract's own variables in their original relative order. -/
theorem claim3_amended (node : ContractDefinition)
    (idRemapping : List (Nat × VariableDeclaration)) (ast : AST) :
    ((addStorageVariables node idRemapping ast).1).stateVariables.map
        (fun v => (v.name, v.typeString)) =
      ((inheritedVariablesMap ast node).map
          (fun p => (p.2.name, p.2.typeString))).reverse ++
        node.stateVariables.map (fun v => (v.name, v.typeString)) :=
  addStorageVariables_pairs node idRemapping ast

/-- C2 (amended): a state-variable name declared by some base contract gives
rise to exactly one clone in the prepended inherited block — deduplication
happens only among the bases — and the contract's own declarations are kept
unchanged behind it, so a name declared by both the contract and a base ends
up on exactly *two* variables (the base-merge clone and the contract's own),
not one. -/
theorem claim2_amended (node : ContractDefinition)
    (idRemapping : List (Nat × VariableDeclaration)) (ast : AST) (nm : String) :
    (addStorageVariables node idRemapping ast).1.stateVariables.countP
        (fun v => v.name == nm) =
      (if ∃ b ∈ getBaseContracts ast node, ∃ d ∈ b.stateVariables, d.name = nm
       then 1 else 0) +
        node.stateVariables.countP (fun v => v.name == nm) := by
  have hnames : (addStorageVariables node idRemapping ast).1.stateVariables.map
      (fun v => v.name) =
      ((inheritedVariablesMap ast node).map (fun p => p.2.name)).reverse ++
        node.stateVariables.map (fun v => v.name) := by
    have h3 := addStorageVariables_pairs node idRemapping ast
    have := congrArg (List.map Prod.fst) h3
    simpa [List.map_map, Function.comp] using this
  have hcount : ∀ (l : List VariableDeclaration),
      l.countP (fun v => v.name == nm) = List.count nm (l.map (fun v => v.name)) := by
    intro l
    rw [List.count, List.countP_map]
    rfl
  rw [hcount, hnames, List.count_append, List.count_reverse]
  have hvk : (inheritedVariablesMap ast node).map (fun p => p.2.name) =
      (inheritedVariablesMap ast node).map Prod.fst := by
    refine List.map_congr_left ?_
    intro p hp
    exact (mergedMap_val_name ast node p hp).symm
  rw [hvk]
  rw [← hcount node.stateVariables]
  congr 1
  by_cases hmem : nm ∈ (inheritedVariablesMap ast node).map Prod.fst
  · rw [List.count_eq_one_of_mem (mergedMap_keys_nodup ast node) hmem,
      if_pos ((mergedMap_mem_keys ast node nm).mp hmem)]
  · rw [List.count_eq_zero_of_not_mem hmem, if_neg]
    intro hex
    exact hmem ((mergedMap_mem_keys ast node nm).mpr hex)

/-! ## Lemmas about delegating-function creation -/

theorem cloneVarList_shape (vs : List VariableDeclaration) (n : Nat) :
    ((cloneVarList vs n).1).map (fun v => (v.name, v.typeString)) =
      vs.map (fun v => (v.name, v.typeString)) := by
  induction vs generalizing n with
  | nil => rfl
  | cons v t ih =>
    simp [cloneVarList, cloneVariableDeclaration, reserveId, ih]

theorem cloneParameterList_shape (pl : ParameterList) (n : Nat) :
    plShape (cloneParameterList pl n).1 = plShape pl := by
  simp [cloneParameterList, plShape, cloneVarList_shape]

theorem createIdentifiers_forwards (ps : List VariableDeclaration) (n : Nat) :
    forwardsParams ps (createIdentifiers ps n).1 := by
  induction ps generalizing n with
  | nil => exact List.Forall₂.nil
  | cons v t ih =>
    simp only [createIdentifiers, createIdentifier, reserveId]
    exact List.Forall₂.cons ⟨n, rfl⟩ (ih (n + 1))

theorem createDelegatingFunction_ok (f priv : FunctionDefinition) (scope n : Nat)
    (d : FunctionDefinition) (n' : Nat)
    (h : createDelegatingFunction f priv scope n = .ok (d, n')) :
    d.name = f.name ∧ d.visibility = f.visibility ∧
    d.stateMutability = f.stateMutability ∧
    plShape d.parameters = plShape f.parameters ∧
    plShape d.returnParameters = plShape f.returnParameters ∧
    ∃ blk, d.body = some blk ∧
      ∃ rid cid args,
        blk.statements =
          [Statement.returnStmt rid d.returnParameters.id
            { id := cid, calleeId := priv.id, calleeName := priv.name,
              args := args }] ∧
        forwardsParams d.parameters.parameters args := by
  unfold createDelegatingFunction at h
  split at h
  next inputParams n1 h1 =>
  split at h
  next retParams n2 h2 =>
  split at h
  · cases h
  · split at h
    · cases h
    · split at h
      next funcId n3 h3 =>
      split at h
      next mods n4 h4 =>
      split at h
      next blockId n5 h5 =>
      split at h
      next returnId n6 h6 =>
      split at h
      next callId n7 h7 =>
      split at h
      next args n8 h8 =>
      injection h with h'
      injection h' with hd hn
      subst hd
      have hshape1 := cloneParameterList_shape f.parameters n
      rw [h1] at hshape1
      have hshape2 := cloneParameterList_shape f.returnParameters n1
      rw [h2] at hshape2
      have hfw := createIdentifiers_forwards inputParams.parameters n7
      rw [h8] at hfw
      exact ⟨rfl, rfl, rfl, hshape1, hshape2, _, rfl, returnId, callId, args,
        rfl, hfw⟩

theorem forall2_mem_right {α β : Type} {R : α → β → Prop} {as : List α}
    {bs : List β} (h : List.Forall₂ R as bs) (b : β) (hb : b ∈ bs) :
    ∃ a ∈ as, R a b := by
  induction h with
  | nil => cases hb
  | cons hr _ ih =>
    rcases List.mem_cons.mp hb with rfl | hb'
    · exact ⟨_, List.mem_cons_self _ _, hr⟩
    · rcases ih hb' with ⟨a, ha, har⟩
      exact ⟨a, List.mem_cons_of_mem _ ha, har⟩

theorem buildDelegates_ok (idRemapping : List (Nat × FunctionDefinition))
    (scope : Nat) :
    ∀ (fs : List FunctionDefinition) (n : Nat) (ds : List FunctionDefinition)
      (n' : Nat), buildDelegates idRemapping scope fs n = .ok (ds, n') →
      List.Forall₂ (delegatesFor idRemapping) fs ds := by
  intro fs
  induction fs with
  | nil =>
    intro n ds n' h
    cases h
    exact List.Forall₂.nil
  | cons f t ih =>
    intro n ds n' h
    unfold buildDelegates at h
    cases hget : jsMapGet idRemapping f.id with
    | none => rw [hget] at h; cases h
    | some priv =>
      rw [hget] at h
      dsimp only at h
      cases hcd : createDelegatingFunction f priv scope n with
      | error e => rw [hcd] at h; cases h
      | ok p =>
        rcases p with ⟨d, n1⟩
        rw [hcd] at h
        simp only [bind, Except.bind] at h
        cases hbd : buildDelegates idRemapping scope t n1 with
        | error e =>
          rw [hbd] at h
          cases h
        | ok q =>
          rcases q with ⟨ds', n2⟩
          rw [hbd] at h
          dsimp only at h
          injection h with h'
          injection h' with hds hn
          subst hds
          rcases createDelegatingFunction_ok f priv scope n d n1 hcd with
            ⟨h1, h2, h3, h4, h5, blk, hblk, rid, cid, args, hst, hfw⟩
          exact List.Forall₂.cons
            ⟨priv, hget, h1, h2, h3, h4, h5, blk, hblk, rid, cid, args, hst, hfw⟩
            (ih n1 ds' n2 hbd)

theorem resolve_name_eq (ast : AST) :
    ∀ (fuel : Nat) (node : ContractDefinition) (nm : String)
      (f : FunctionDefinition), resolveFunctionName fuel ast node nm = .ok f →
      f.name = nm := by
  intro fuel
  induction fuel with
  | zero => intro node nm f h; cases h
  | succ k ih =>
    intro node nm f h
    rcases hfilt : node.functions.filter (fun g => g.name == nm) with _ | ⟨m, rest⟩
    · simp only [resolveFunctionName, hfilt] at h
      rcases hb : getBaseContracts ast node with _ | ⟨b1, t⟩
      · rw [hb] at h; cases h
      · rw [hb] at h
        simp only [List.length_nil] at h
        exact ih b1 nm f h
    · rcases rest with _ | ⟨m2, t⟩
      · simp only [resolveFunctionName, hfilt] at h
        simp only [List.length_singleton] at h
        have hm : m = f := by
          simpa using h
        have hmem : m ∈ node.functions.filter (fun g => g.name == nm) := by
          rw [hfilt]; exact List.mem_singleton_self m
        have := (List.mem_filter.mp hmem).2
        subst hm
        exact eq_of_beq this
      · have hlen : 1 < (node.functions.filter (fun g => g.name == nm)).length := by
          rw [hfilt]
          simp
        simp only [resolveFunctionName, if_pos hlen] at h
        cases h

theorem resolve_own_unique (fuel : Nat) (ast : AST) (node : ContractDefinition)
    (nm : String) (g : FunctionDefinition)
    (h : node.functions.filter (fun f => f.name == nm) = [g]) :
    resolveFunctionName (fuel + 1) ast node nm = .ok g := by
  simp [resolveFunctionName, h]

theorem resolveList_ok (fuel : Nat) (ast : AST) (node : ContractDefinition) :
    ∀ (names : List String) (rs : List FunctionDefinition),
      resolveList fuel ast node names = .ok rs →
      ∀ f ∈ rs, resolveFunctionName fuel ast node f.name = .ok f := by
  intro names
  induction names with
  | nil =>
    intro rs h f hf
    cases h
    cases hf
  | cons nm t ih =>
    intro rs h f hf
    unfold resolveList at h
    cases hr : resolveFunctionName fuel ast node nm with
    | error e => rw [hr] at h; cases h
    | ok f0 =>
      rw [hr] at h
      cases hrest : resolveList fuel ast node t with
      | error e =>
        rw [hrest] at h
        cases h
      | ok rs' =>
        rw [hrest] at h
        simp only [bind, Except.bind] at h
        injection h with h'
        subst h'
        rcases List.mem_cons.mp hf with rfl | hf'
        · rw [resolve_name_eq ast fuel node nm f hr]
          exact hr
        · exact ih rs' hrest f hf'

/-! ## Claim 5: interface promotion -/

/-- C5: when `addNonoverridenPublicFunctions` succeeds, the contract gains
exactly one delegating function per resolved visible-interface entry whose
implementation is owned by a base (appended after its own functions, in
order); each delegating function carries the original unsuffixed name, the
resolved function's visibility, mutability, and parameter and return shapes,
and a body that is a single return statement calling the private suffixed
clone recorded in the remapping table with the parameters forwarded
positionally; and for a name the contract declares itself (uniquely, with
its own scope), no delegating function is synthesized. -/
theorem claim5_promotion (node : ContractDefinition)
    (idRemapping : List (Nat × FunctionDefinition)) (ast : AST)
    (node' : ContractDefinition) (ast' : AST)
    (h : addNonoverridenPublicFunctions node idRemapping ast = .ok (node', ast')) :
    ∃ resolved delegates,
      resolveList (ast.contracts.length + 1) ast node
        (squashInterface (ast.contracts.length + 1) ast node) = .ok resolved ∧
      node'.functions = node.functions ++ delegates ∧
      List.Forall₂ (delegatesFor idRemapping)
        (resolved.filter (fun f => f.scope != node.id)) delegates ∧
      (∀ nm g, node.functions.filter (fun f => f.name == nm) = [g] →
        g.scope = node.id → ∀ d ∈ delegates, d.name ≠ nm) := by
  simp only [addNonoverridenPublicFunctions] at h
  cases hres : resolveList (ast.contracts.length + 1) ast node
      (squashInterface (ast.contracts.length + 1) ast node) with
  | error e =>
    rw [hres] at h
    simp only [bind, Except.bind] at h
    cases h
  | ok resolved =>
    rw [hres] at h
    simp only [bind, Except.bind] at h
    cases hbd : buildDelegates idRemapping node.id
        (resolved.filter (fun f => f.scope != node.id)) ast.nextId with
    | error e =>
      rw [hbd] at h
      cases h
    | ok p =>
      rcases p with ⟨delegates, nn⟩
      rw [hbd] at h
      dsimp only at h
      injection h with h'
      have hnode : ({ node with functions := node.functions ++ delegates }) = node' :=
        congrArg Prod.fst h'
      refine ⟨resolved, delegates, rfl, ?_, ?_, ?_⟩
      · rw [← hnode]
      · exact buildDelegates_ok idRemapping node.id _ _ _ _ hbd
      · intro nm g hg hscope d hd hdn
        have h2 := buildDelegates_ok idRemapping node.id _ _ _ _ hbd
        rcases forall2_mem_right h2 d hd with ⟨fr, hfr, hdel⟩
        obtain ⟨hfrres, hfscope⟩ := List.mem_filter.mp hfr
        rcases hdel with ⟨priv, _, hname, _⟩
        have hfrname : fr.name = nm := by rw [← hname]; exact hdn
        have hres1 := resolveList_ok _ ast node _ resolved hres fr hfrres
        rw [hfrname] at hres1
        have hown := resolve_own_unique ast.contracts.length ast node nm g hg
        rw [hown] at hres1
        injection hres1 with hfg
        rw [← hfg] at hfscope
        simp only [bne_iff_ne, ne_eq] at hfscope
        exact hfscope hscope

theorem claim5_promotion_witness :
    addNonoverridenPublicFunctions superB.1 superB.2.1 superB.2.2 =
      .ok (promoteB.1, promoteB.2) ∧
    ∃ resolved delegates,
      resolveList (superB.2.2.contracts.length + 1) superB.2.2 superB.1
        (squashInterface (superB.2.2.contracts.length + 1) superB.2.2 superB.1) =
        .ok resolved ∧
      promoteB.1.functions = superB.1.functions ++ delegates ∧
      List.Forall₂ (delegatesFor superB.2.1)
        (resolved.filter (fun f => f.scope != superB.1.id)) delegates ∧
      (∀ nm g, superB.1.functions.filter (fun f => f.name == nm) = [g] →
        g.scope = superB.1.id → ∀ d ∈ delegates, d.name ≠ nm) :=
  ⟨by decide,
   claim5_promotion superB.1 superB.2.1 superB.2.2 promoteB.1 promoteB.2 (by decide)⟩

/-! ## Preservation: flattening a contract never changes any contract's id or
linearization, so the scheduler's rounds are independent of the visits -/

theorem except_bind_ok {ε α β : Type} (x : Except ε α) (f : α → Except ε β)
    (b : β) (h : (x >>= f) = .ok b) : ∃ a, x = .ok a ∧ f a = .ok b := by
  cases x with
  | error e => simp [bind, Except.bind] at h
  | ok a => exact ⟨a, rfl, by simpa [bind, Except.bind] using h⟩

theorem solveConstructorInheritance_pres (node : ContractDefinition) (ast : AST)
    (node1 : ContractDefinition) (ast1 : AST)
    (h : solveConstructorInheritance node ast = .ok (node1, ast1)) :
    node1.id = node.id ∧
    node1.linearizedBaseContracts = node.linearizedBaseContracts ∧
    ast1.contracts = ast.contracts := by
  unfold solveConstructorInheritance at h
  dsimp only at h
  rcases except_bind_ok _ _ _ h with ⟨tr, hb, h2⟩
  rcases tr with ⟨newFuncs, statements, n1⟩
  dsimp only at h2
  repeat' split at h2
  all_goals
    injection h2 with h'
    injection h' with hA hB
    rw [← hA, ← hB]
    exact ⟨rfl, rfl, rfl⟩

theorem addPrivateSuperFunctions_pres (node : ContractDefinition)
    (r : List (Nat × FunctionDefinition)) (ast : AST) :
    (addPrivateSuperFunctions node r ast).1.id = node.id ∧
    (addPrivateSuperFunctions node r ast).1.linearizedBaseContracts =
      node.linearizedBaseContracts ∧
    (addPrivateSuperFunctions node r ast).2.2.contracts = ast.contracts :=
  ⟨rfl, rfl, rfl⟩

theorem addNonoverridenPublicFunctions_pres (node : ContractDefinition)
    (r : List (Nat × FunctionDefinition)) (ast : AST)
    (node' : ContractDefinition) (ast' : AST)
    (h : addNonoverridenPublicFunctions node r ast = .ok (node', ast')) :
    node'.id = node.id ∧
    node'.linearizedBaseContracts = node.linearizedBaseContracts ∧
    ast'.contracts = ast.contracts := by
  unfold addNonoverridenPublicFunctions at h
  rcases except_bind_ok _ _ _ h with ⟨rs, hrs, h2⟩
  rcases except_bind_ok _ _ _ h2 with ⟨p, hp, h3⟩
  dsimp only at h3
  injection h3 with h'
  injection h' with hA hB
  rw [← hA, ← hB]
  exact ⟨rfl, rfl, rfl⟩

theorem addStorageVariables_pres (node : ContractDefinition)
    (r : List (Nat × VariableDeclaration)) (ast : AST) :
    (addStorageVariables node r ast).1.id = node.id ∧
    (addStorageVariables node r ast).1.linearizedBaseContracts =
      node.linearizedBaseContracts ∧
    (addStorageVariables node r ast).2.2.contracts = ast.contracts :=
  ⟨rfl, rfl, rfl⟩

theorem addNonOverridenModifiers_pres (node : ContractDefinition)
    (r : List (Nat × ModifierDefinition)) (ast : AST) :
    (addNonOverridenModifiers node r ast).1.id = node.id ∧
    (addNonOverridenModifiers node r ast).1.linearizedBaseContracts =
      node.linearizedBaseContracts ∧
    (addNonOverridenModifiers node r ast).2.2.contracts = ast.contracts :=
  ⟨rfl, rfl, rfl⟩

theorem updateReferencedDeclarations_pres (node : ContractDefinition)
    (r : Nat → Option (Nat × String)) (ast : AST) :
    (updateReferencedDeclarations node r ast).1.id = node.id ∧
    (updateReferencedDeclarations node r ast).1.linearizedBaseContracts =
      node.linearizedBaseContracts ∧
    (updateReferencedDeclarations node r ast).2.contracts = ast.contracts :=
  ⟨rfl, rfl, rfl⟩

theorem getContract_find_id (ast : AST) (cid : Nat) (node : ContractDefinition)
    (hget : getContract ast cid = some node) : node.id = cid := by
  unfold getContract at hget
  exact eq_of_beq (List.find?_some (p := fun (c : ContractDefinition) => c.id == cid) hget)

theorem find?_sig_replace_ne (upd : ContractDefinition) (tid x : Nat)
    (hid : upd.id = tid) (hx : (tid == x) = false) (l : List ContractDefinition) :
    ((l.map (fun c => if c.id == tid then upd else c)).find?
        (fun c => c.id == x)).map (fun c => (c.id, c.linearizedBaseContracts)) =
      (l.find? (fun c => c.id == x)).map
        (fun c => (c.id, c.linearizedBaseContracts)) := by
  induction l with
  | nil => rfl
  | cons c t ih =>
    rw [List.map_cons]
    by_cases hc : (c.id == tid) = true
    · have hcx : (c.id == x) = false := by rw [eq_of_beq hc]; exact hx
      have hux : (upd.id == x) = false := by rw [hid]; exact hx
      rw [if_pos hc, List.find?_cons_of_neg (p := fun (c : ContractDefinition) => c.id == x) _ (by simp [hux]),
        List.find?_cons_of_neg (p := fun (c : ContractDefinition) => c.id == x) _ (by simp [hcx])]
      exact ih
    · rw [if_neg hc]
      by_cases hcx : (c.id == x) = true
      · rw [List.find?_cons_of_pos (p := fun (c : ContractDefinition) => c.id == x) _ hcx, List.find?_cons_of_pos (p := fun (c : ContractDefinition) => c.id == x) _ hcx]
      · rw [List.find?_cons_of_neg (p := fun (c : ContractDefinition) => c.id == x) _ (by simp [hcx]),
          List.find?_cons_of_neg (p := fun (c : ContractDefinition) => c.id == x) _ (by simp [hcx])]
        exact ih

theorem find?_sig_replace_eq (upd node : ContractDefinition)
    (hid : upd.id = node.id)
    (hlin : upd.linearizedBaseContracts = node.linearizedBaseContracts)
    (l : List ContractDefinition)
    (hfind : l.find? (fun c => c.id == node.id) = some node) :
    ((l.map (fun c => if c.id == node.id then upd else c)).find?
        (fun c => c.id == node.id)).map (fun c => (c.id, c.linearizedBaseContracts)) =
      (l.find? (fun c => c.id == node.id)).map
        (fun c => (c.id, c.linearizedBaseContracts)) := by
  induction l with
  | nil => cases hfind
  | cons c t ih =>
    rw [List.map_cons]
    by_cases hc : (c.id == node.id) = true
    · have hcfind : c = node := by
        rw [List.find?_cons_of_pos (p := fun (c : ContractDefinition) => c.id == node.id) _ hc] at hfind
        injection hfind
      have hu : (upd.id == node.id) = true := by rw [hid]; exact beq_self_eq_true _
      rw [if_pos hc, List.find?_cons_of_pos (p := fun (c : ContractDefinition) => c.id == node.id) _ hu, List.find?_cons_of_pos (p := fun (c : ContractDefinition) => c.id == node.id) _ hc]
      simp [hid, hlin, hcfind]
    · rw [List.find?_cons_of_neg (p := fun (c : ContractDefinition) => c.id == node.id) _ (by simp [hc])] at hfind
      rw [if_neg hc, List.find?_cons_of_neg (p := fun (c : ContractDefinition) => c.id == node.id) _ (by simp [hc]),
        List.find?_cons_of_neg (p := fun (c : ContractDefinition) => c.id == node.id) _ (by simp [hc])]
      exact ih hfind

theorem lookupSig_setContract (a base : AST) (cid : Nat)
    (node upd : ContractDefinition) (hc : a.contracts = base.contracts)
    (hget : getContract base cid = some node) (hid : upd.id = node.id)
    (hlin : upd.linearizedBaseContracts = node.linearizedBaseContracts) :
    ∀ x, lookupSig (setContract a upd) x = lookupSig base x := by
  intro x
  have hnid : node.id = cid := getContract_find_id base cid node hget
  have hfind : base.contracts.find? (fun c => c.id == node.id) = some node := by
    rw [hnid]; exact hget
  unfold lookupSig getContract setContract
  dsimp only
  rw [hc, hid]
  by_cases hx : (node.id == x) = true
  · have hxeq : x = node.id := (eq_of_beq hx).symm
    subst hxeq
    exact find?_sig_replace_eq upd node hid hlin base.contracts hfind
  · exact find?_sig_replace_ne upd node.id x hid (by simpa using hx) base.contracts

theorem any_getBase (ast : AST) (cid : Nat) (ids : List Nat) :
    ((ids.filterMap (getContract ast)).any (fun b => b.id == cid)) =
      (ids.any (fun b => ((getContract ast b).isSome) && (b == cid))) := by
  induction ids with
  | nil => rfl
  | cons b t ih =>
    cases hb : getContract ast b with
    | none => simp [List.filterMap_cons, hb, ih]
    | some c =>
      have hcb : c.id = b := getContract_find_id ast b c hb
      simp [List.filterMap_cons, hb, List.any_cons, ih, hcb]

theorem lookupSig_isSome (a1 a2 : AST) (h : ∀ x, lookupSig a1 x = lookupSig a2 x)
    (b : Nat) : (getContract a1 b).isSome = (getContract a2 b).isSome := by
  have hb := h b
  unfold lookupSig at hb
  cases h1 : getContract a1 b <;> cases h2 : getContract a2 b <;>
    rw [h1, h2] at hb <;> simp_all

theorem baseRel_congr (a1 a2 : AST) (h : ∀ x, lookupSig a1 x = lookupSig a2 x) :
    baseRel a1 = baseRel a2 := by
  funext oid cid
  unfold baseRel
  have hoid := h oid
  unfold lookupSig at hoid
  cases h1 : getContract a1 oid with
  | none =>
    cases h2 : getContract a2 oid with
    | none => rfl
    | some o2 => rw [h1, h2] at hoid; cases hoid
  | some o1 =>
    cases h2 : getContract a2 oid with
    | none => rw [h1, h2] at hoid; cases hoid
    | some o2 =>
      rw [h1, h2] at hoid
      injection hoid with hsig
      injection hsig with hi hl
      dsimp only
      unfold getBaseContracts
      rw [any_getBase, any_getBase, hl]
      induction (o2.linearizedBaseContracts.drop 1) with
      | nil => rfl
      | cons b t ihb =>
        simp only [List.any_cons, ihb, lookupSig_isSome a1 a2 h b]

theorem visitContractDefinition_sig (cid : Nat) (ast ast2 : AST)
    (h : visitContractDefinition cid ast = .ok ast2) :
    ∀ x, lookupSig ast2 x = lookupSig ast x := by
  unfold visitContractDefinition at h
  cases hget : getContract ast cid with
  | none =>
    rw [hget] at h
    injection h with h'
    subst h'
    intro x
    rfl
  | some node =>
    rw [hget] at h
    dsimp only at h
    by_cases hlin : node.linearizedBaseContracts.length < 2
    · rw [if_pos hlin] at h
      injection h with h'
      subst h'
      intro x
      rfl
    · rw [if_neg hlin] at h
      rcases except_bind_ok _ _ _ h with ⟨p1, h1, h2⟩
      rcases p1 with ⟨node1, ast1⟩
      dsimp only at h2
      rcases except_bind_ok _ _ _ h2 with ⟨p3, h3, h4⟩
      rcases p3 with ⟨node3, ast3⟩
      dsimp only at h4
      injection h4 with h'
      subst h'
      obtain ⟨e1, e2, e3⟩ := solveConstructorInheritance_pres node ast node1 ast1 h1
      obtain ⟨f1, f2, f3⟩ := addNonoverridenPublicFunctions_pres _ _ _ _ _ h3
      refine lookupSig_setContract _ ast cid node _ ?_ hget ?_ ?_
      · exact f3.trans e3
      · exact f1.trans e1
      · exact f2.trans e2

theorem visitAll_sig (ids : List Nat) (ast ast2 : AST)
    (h : visitAll ids ast = .ok ast2) :
    ∀ x, lookupSig ast2 x = lookupSig ast x := by
  induction ids generalizing ast with
  | nil =>
    unfold visitAll at h
    simp only [List.foldlM_nil] at h
    injection h with h'
    subst h'
    intro x
    rfl
  | cons i t ih =>
    unfold visitAll at h ih
    simp only [List.foldlM_cons] at h
    rcases except_bind_ok _ _ _ h with ⟨mid, hmid, hrest⟩
    intro x
    exact (ih mid hrest x).trans (visitContractDefinition_sig i ast mid hmid x)

/-! ## Scheduler lemmas -/

theorem length_filter_lt {α : Type} (p : α → Bool) (l : List α) (a : α)
    (ha : a ∈ l) (hpa : p a = false) : (l.filter p).length < l.length := by
  induction l with
  | nil => cases ha
  | cons b t ih =>
    rcases List.mem_cons.mp ha with rfl | ha'
    · rw [List.filter_cons, if_neg (by simp [hpa])]
      exact Nat.lt_succ_of_le (List.length_filter_le p t)
    · rw [List.filter_cons]
      by_cases hb : p b = true
      · rw [if_pos (by simp [hb])]
        exact Nat.succ_lt_succ (ih ha')
      · rw [if_neg (by simp [hb])]
        exact Nat.lt_succ_of_lt (ih ha')

theorem mostDerived_pending_lt (rel : Nat → Nat → Bool) (pending : List Nat)
    (hne : ¬ (mostDerivedOf rel pending).isEmpty = true) :
    (pending.filter (fun c => !((mostDerivedOf rel pending).contains c))).length <
      pending.length := by
  have hex : ∃ m, m ∈ mostDerivedOf rel pending := by
    rcases List.isEmpty_eq_false_iff_exists_mem.mp (by simpa using hne) with ⟨m, hm⟩
    exact ⟨m, hm⟩
  rcases hex with ⟨m, hm⟩
  have hmp : m ∈ pending := List.mem_of_mem_filter hm
  refine length_filter_lt _ pending m hmp ?_
  simp [List.contains, hm]

theorem scheduleF_error_msg (rel : Nat → Nat → Bool) :
    ∀ (fuel : Nat) (pending : List Nat) (e : Err), pending.length ≤ fuel →
      scheduleF rel fuel pending = .error e →
      e = Err.TranspileFailedError "Unable to serialise contracts" := by
  intro fuel
  induction fuel with
  | zero =>
    intro pending e hle h
    cases pending with
    | nil => cases h
    | cons p t => simp at hle
  | succ k ih =>
    intro pending e hle h
    cases pending with
    | nil => cases h
    | cons p t =>
      unfold scheduleF at h
      by_cases hme : (mostDerivedOf rel (p :: t)).isEmpty = true
      · rw [if_pos hme] at h
        injection h with h'
        exact h'.symm
      · rw [if_neg hme] at h
        cases hs : scheduleF rel k
            ((p :: t).filter
              (fun c => !((mostDerivedOf rel (p :: t)).contains c))) with
        | error e2 =>
          rw [hs] at h
          simp only [bind, Except.bind] at h
          injection h with h'
          subst h'
          refine ih _ _ ?_ hs
          have := mostDerived_pending_lt rel (p :: t) hme
          omega
        | ok rest =>
          rw [hs] at h
          simp [bind, Except.bind, pure, Except.pure] at h

theorem contains_mostDerivedOf (rel : Nat → Nat → Bool) (pending : List Nat)
    (c : Nat) (hc : c ∈ pending) :
    ((mostDerivedOf rel pending).contains c) =
      (!(pending.any (fun oid => rel oid c))) := by
  by_cases hq : (pending.any (fun oid => rel oid c)) = true
  · have hnm : c ∉ mostDerivedOf rel pending := by
      intro hmem
      have h2 := (List.mem_filter.mp hmem).2
      rw [hq] at h2
      cases h2
    simp [List.contains, hnm, hq]
  · have hq' : (pending.any (fun oid => rel oid c)) = false := by
      cases hb : pending.any (fun oid => rel oid c)
      · rfl
      · exact absurd hb hq
    have hmem : c ∈ mostDerivedOf rel pending :=
      List.mem_filter.mpr ⟨hc, by rw [hq']; rfl⟩
    simp [List.contains, hmem, hq']

theorem scheduleF_flatten_perm (rel : Nat → Nat → Bool) :
    ∀ (fuel : Nat) (pending : List Nat) (rounds : List (List Nat)),
      scheduleF rel fuel pending = .ok rounds → rounds.flatten.Perm pending := by
  intro fuel
  induction fuel with
  | zero =>
    intro pending rounds h
    cases pending with
    | nil =>
      injection h with h'
      subst h'
      exact List.Perm.refl _
    | cons p t => cases h
  | succ k ih =>
    intro pending rounds h
    cases pending with
    | nil =>
      injection h with h'
      subst h'
      exact List.Perm.refl _
    | cons p t =>
      unfold scheduleF at h
      by_cases hme : (mostDerivedOf rel (p :: t)).isEmpty = true
      · rw [if_pos hme] at h
        cases h
      · rw [if_neg hme] at h
        cases hs : scheduleF rel k
            ((p :: t).filter
              (fun c => !((mostDerivedOf rel (p :: t)).contains c))) with
        | error e2 =>
          rw [hs] at h
          simp only [bind, Except.bind] at h
          cases h
        | ok rest =>
          rw [hs] at h
          simp only [bind, Except.bind, pure, Except.pure] at h
          injection h with h'
          subst h'
          have hperm2 := ih _ rest hs
          have hfc : (p :: t).filter
              (fun c => !((mostDerivedOf rel (p :: t)).contains c)) =
              (p :: t).filter
                (fun c => !((fun cid =>
                  !((p :: t).any (fun oid => rel oid cid))) c)) := by
            refine List.filter_congr ?_
            intro c hc
            rw [contains_mostDerivedOf rel (p :: t) c hc]
          rw [hfc] at hperm2
          rw [List.flatten_cons]
          refine List.Perm.trans ?_
            (List.filter_append_perm
              (fun cid => !((p :: t).any (fun oid => rel oid cid))) (p :: t))
          exact List.Perm.append (List.Perm.refl _) hperm2

theorem scheduleF_order (rel : Nat → Nat → Bool) :
    ∀ (fuel : Nat) (pending : List Nat) (rounds : List (List Nat)),
      scheduleF rel fuel pending = .ok rounds →
      ∀ (i : Nat) (hi : i < rounds.length), ∀ c ∈ rounds.get ⟨i, hi⟩,
        ∀ d ∈ pending, rel d c = true →
          ∃ j, ∃ (hj : j < rounds.length), j < i ∧ d ∈ rounds.get ⟨j, hj⟩ := by
  intro fuel
  induction fuel with
  | zero =>
    intro pending rounds h
    cases pending with
    | nil =>
      injection h with h'
      subst h'
      intro i hi
      simp at hi
    | cons p t => cases h
  | succ k ih =>
    intro pending rounds h
    cases pending with
    | nil =>
      injection h with h'
      subst h'
      intro i hi
      simp at hi
    | cons p t =>
      unfold scheduleF at h
      by_cases hme : (mostDerivedOf rel (p :: t)).isEmpty = true
      · rw [if_pos hme] at h
        cases h
      · rw [if_neg hme] at h
        cases hs : scheduleF rel k
            ((p :: t).filter
              (fun c => !((mostDerivedOf rel (p :: t)).contains c))) with
        | error e2 =>
          rw [hs] at h
          simp only [bind, Except.bind] at h
          cases h
        | ok rest =>
          rw [hs] at h
          simp only [bind, Except.bind, pure, Except.pure] at h
          injection h with h'
          subst h'
          intro i hi c hc d hd hrel
          cases i with
          | zero =>
            have h2 := (List.mem_filter.mp hc).2
            have h3 : (p :: t).any (fun oid => rel oid c) = true :=
              List.any_of_mem hd hrel
            rw [h3] at h2
            cases h2
          | succ i' =>
            have hi' : i' < rest.length := Nat.lt_of_succ_lt_succ hi
            by_cases hdm : d ∈ mostDerivedOf rel (p :: t)
            · exact ⟨0, Nat.succ_pos _, Nat.succ_pos _, hdm⟩
            · have hd2 : d ∈ (p :: t).filter
                  (fun c => !((mostDerivedOf rel (p :: t)).contains c)) := by
                refine List.mem_filter.mpr ⟨hd, ?_⟩
                have hcf : (mostDerivedOf rel (p :: t)).contains d = false := by
                  simp [List.contains, hdm]
                rw [hcf]
                rfl
              rcases ih _ rest hs i' hi' c hc d hd2 hrel with ⟨j, hj, hji, hdj⟩
              exact ⟨j + 1, Nat.succ_lt_succ hj, Nat.succ_lt_succ hji, hdj⟩

theorem mapLoopF_ok_schedule :
    ∀ (fuel : Nat) (pending : List Nat) (ast astF : AST),
      mapLoopF fuel pending ast = .ok astF →
      ∃ rounds, scheduleF (baseRel ast) fuel pending = .ok rounds ∧
        rounds.foldlM (fun a r => visitAll r a) ast = .ok astF := by
  intro fuel
  induction fuel with
  | zero =>
    intro pending ast astF h
    cases pending with
    | nil =>
      injection h with h'
      subst h'
      exact ⟨[], rfl, rfl⟩
    | cons p t => cases h
  | succ k ih =>
    intro pending ast astF h
    cases pending with
    | nil =>
      injection h with h'
      subst h'
      exact ⟨[], rfl, rfl⟩
    | cons p t =>
      unfold mapLoopF at h
      by_cases hme : (mostDerivedOf (baseRel ast) (p :: t)).isEmpty = true
      · rw [if_pos hme] at h
        cases h
      · rw [if_neg hme] at h
        rcases except_bind_ok _ _ _ h with ⟨ast2, hv, hrec⟩
        rcases ih _ _ _ hrec with ⟨rest, hsched2, hfold2⟩
        have hbr : baseRel ast2 = baseRel ast :=
          baseRel_congr ast2 ast (visitAll_sig _ _ _ hv)
        rw [hbr] at hsched2
        refine ⟨mostDerivedOf (baseRel ast) (p :: t) :: rest, ?_, ?_⟩
        · unfold scheduleF
          rw [if_neg hme, hsched2]
          simp [bind, Except.bind, pure, Except.pure]
        · simp only [List.foldlM_cons]
          rw [show visitAll (mostDerivedOf (baseRel ast) (p :: t)) ast =
            .ok ast2 from hv]
          simp only [bind, Except.bind]
          exact hfold2

/-! ## Claim 1: the scheduler visits every contract exactly once, each only
after every contract that lists it as a base -/

/-- C1: a successful `InheritanceInliner.map` run performs exactly the visit
schedule computed by the round decomposition: the map's effect equals
visiting the rounds in order, every contract id of the compilation unit
occurs in the flattened rounds exactly once, and whenever a contract `c`
sits in round `i`, every contract `d` that lists `c` among its base
contracts sits in some strictly earlier round (hence was flattened and
removed from the pending set before `c` was flattened). -/
theorem claim1_scheduler (ast : AST) (rounds : List (List Nat))
    (hok : ∃ astF, InheritanceInliner.map ast = .ok astF)
    (hsched : schedule (baseRel ast) (idsOf ast) = .ok rounds)
    (hnd : (idsOf ast).Nodup) :
    (rounds.foldlM (fun a r => visitAll r a) ast = InheritanceInliner.map ast) ∧
    (∀ cid ∈ idsOf ast, rounds.flatten.count cid = 1) ∧
    (∀ (i : Nat) (hi : i < rounds.length), ∀ c ∈ rounds.get ⟨i, hi⟩,
      ∀ d ∈ idsOf ast, baseRel ast d c = true →
        ∃ j, ∃ (hj : j < rounds.length), j < i ∧ d ∈ rounds.get ⟨j, hj⟩) := by
  rcases hok with ⟨astF, hmap⟩
  have hmap' : mapLoopF (idsOf ast).length (idsOf ast) ast = .ok astF := hmap
  rcases mapLoopF_ok_schedule _ _ _ _ hmap' with ⟨rounds', hsched', hfold'⟩
  have hsch : scheduleF (baseRel ast) (idsOf ast).length (idsOf ast) =
      .ok rounds := hsched
  have hrr : rounds' = rounds := by
    have := hsched'.symm.trans hsch
    injection this
  subst hrr
  refine ⟨?_, ?_, ?_⟩
  · rw [hfold', hmap]
  · intro cid hcid
    have hperm := scheduleF_flatten_perm (baseRel ast) _ _ _ hsch
    rw [List.Perm.count_eq hperm cid]
    exact List.count_eq_one_of_mem hnd hcid
  · exact scheduleF_order (baseRel ast) _ _ _ hsch

theorem claim1_scheduler_witness :
    schedule (baseRel astW) (idsOf astW) = .ok [[2], [1]] ∧
    (idsOf astW).Nodup ∧ InheritanceInliner.map astW = .ok astW ∧
    (([[2], [1]] : List (List Nat)).foldlM (fun a r => visitAll r a) astW =
        InheritanceInliner.map astW) ∧
    (∀ cid ∈ idsOf astW, ([[2], [1]] : List (List Nat)).flatten.count cid = 1) ∧
    (∀ (i : Nat) (hi : i < ([[2], [1]] : List (List Nat)).length),
      ∀ c ∈ ([[2], [1]] : List (List Nat)).get ⟨i, hi⟩,
      ∀ d ∈ idsOf astW, baseRel astW d c = true →
        ∃ j, ∃ (hj : j < ([[2], [1]] : List (List Nat)).length), j < i ∧
          d ∈ ([[2], [1]] : List (List Nat)).get ⟨j, hj⟩) := by
  refine ⟨by decide, by decide, by decide, ?_⟩
  exact claim1_scheduler astW [[2], [1]] ⟨astW, by decide⟩ (by decide) (by decide)

/-! ## Claim 8: unserialisable hierarchies abort with the malformed-hierarchy
error -/

/-- C8: when the round decomposition of the compilation unit's contracts gets
stuck — at some round the subset of pending contracts not used as a base by
any other pending contract is empty while contracts remain — the error is
exactly the malformed-hierarchy `TranspileFailedError`, and
`InheritanceInliner.map` never returns a result; when the very first round
is already stuck, `map` returns exactly that error. -/
theorem claim8_malformed (ast : AST) (e : Err)
    (h : schedule (baseRel ast) (idsOf ast) = .error e) :
    e = Err.TranspileFailedError "Unable to serialise contracts" ∧
    (∀ astF, InheritanceInliner.map ast ≠ .ok astF) ∧
    ((mostDerivedOf (baseRel ast) (idsOf ast)).isEmpty = true → idsOf ast ≠ [] →
      InheritanceInliner.map ast =
        .error (Err.TranspileFailedError "Unable to serialise contracts")) := by
  have h' : scheduleF (baseRel ast) (idsOf ast).length (idsOf ast) = .error e := h
  refine ⟨?_, ?_, ?_⟩
  · exact scheduleF_error_msg (baseRel ast) _ _ _ (Nat.le_refl _) h'
  · intro astF hok
    have hok' : mapLoopF (idsOf ast).length (idsOf ast) ast = .ok astF := hok
    rcases mapLoopF_ok_schedule _ _ _ _ hok' with ⟨rounds, hs, _⟩
    rw [h'] at hs
    cases hs
  · intro hme hne
    show mapLoopF (idsOf ast).length (idsOf ast) ast = _
    rcases hids : idsOf ast with _ | ⟨x, xs⟩
    · exact absurd hids hne
    · rw [hids] at hme
      show mapLoopF (xs.length + 1) (x :: xs) ast = _
      unfold mapLoopF
      dsimp only
      rw [if_pos hme]

theorem claim8_malformed_witness :
    schedule (baseRel astCyc) (idsOf astCyc) =
      .error (Err.TranspileFailedError "Unable to serialise contracts") ∧
    (∀ astF, InheritanceInliner.map astCyc ≠ .ok astF) ∧
    InheritanceInliner.map astCyc =
      .error (Err.TranspileFailedError "Unable to serialise contracts") := by
  have happ := claim8_malformed astCyc
    (Err.TranspileFailedError "Unable to serialise contracts") (by decide)
  exact ⟨by decide, happ.2.1, happ.2.2 (by decide) (by decide)⟩

end Warp
